import Mathlib

/-!
Verification development for the ipybridge.nvim variable-explorer helpers.

The Python modules `ipybridge_ns.py` and `bootstrap_helpers.py` are embedded
shallowly: Python runtime values become the inductive `PyVal` (restricted to
the scalar universe int / bool / str / None, which is enough to drive every
classification branch of the source), dictionaries and namespaces become
association lists, and fallible operations return `Except`.  A Python
function that can raise an uncaught exception is embedded with the
exception in the `Except.error` channel; exceptions that the source catches
are turned into the value the corresponding `except` block produces.
-/

namespace IpyBridge

/-- JSON-serialisable values, the codomain of preview payload fragments. -/
inductive J where
  | null : J
  | jint : Int → J
  | jbool : Bool → J
  | jstr : String → J
  | jarr : List J → J
  | jobj : List (String × J) → J

/-- Model of the Python runtime values the helpers classify.  Scalars are
restricted to int / bool / str / None; compound values mirror the concrete
types the source dispatches on (list, dict, pandas DataFrame / Series,
numpy ndarray, dataclass instances, ctypes structures / arrays / scalars)
plus the callable / class / module values that `list_variables` skips. -/
inductive PyVal where
  | vint : Int → PyVal
  | vbool : Bool → PyVal
  | vstr : String → PyVal
  | vnone : PyVal
  | vlist : List PyVal → PyVal
  | vdict : List (String × PyVal) → PyVal
  | dataframe (columns : List String) (rows : List (List PyVal)) : PyVal
  | series (elems : List PyVal) : PyVal
  | ndarray1 (dtype : String) (elems : List Int) : PyVal
  | ndarray2 (dtype : String) (rows : List (List Int)) : PyVal
  | ndarrayN (dtype : String) (shape : List Nat) : PyVal
  | dataclassV (cls : String) (fields : List (String × String × PyVal)) : PyVal
  | cstruct (cls : String) (fields : List (String × String × PyVal)) : PyVal
  | carray (tyName elemTy : String) (elems : List PyVal) : PyVal
  | cscalar (tyName : String) (v : Int) : PyVal
  | pymodule (name : String) : PyVal
  | pyfunction (name : String) : PyVal
  | pyclass (name : String) : PyVal
  | callableObj (cls : String) : PyVal

/-- A namespace: a Python dict from variable name to value, as an
association list with the dict's (unique-key) semantics. -/
abbrev Namespace := List (String × PyVal)

/-- First-match lookup, the embedding of `ns[name]` / `name in ns`. -/
def nsFind (ns : Namespace) (name : String) : Option PyVal :=
  match ns with
  | [] => Option.none
  | (k, v) :: rest => if k = name then some v else nsFind rest name

/-- Single-quote character (used by the path grammar and path rendering). -/
def sq : Char := Char.ofNat 39

/-- Python `str.strip()`: drop leading and trailing whitespace. -/
def pyStrip (s : String) : String :=
  ⟨((s.data.dropWhile Char.isWhitespace).reverse.dropWhile Char.isWhitespace).reverse⟩

/-- Python `s.startswith(pre)` (character-list level). -/
def pyStartsWith (s pre : String) : Bool := pre.data.isPrefixOf s.data

/-- Python `s.endswith(suf)` (character-list level). -/
def pyEndsWith (s suf : String) : Bool := suf.data.reverse.isPrefixOf s.data.reverse

/-- Python `s[:-n]` for `0 < n ≤ len(s)` (character-list level): drop the
last `n` characters. -/
def pyDropRight (s : String) (n : Nat) : String :=
  ⟨s.data.take (s.data.length - n)⟩

/-- Embedding of `_is_ident_char` from `resolve_path`. -/
def isIdentChar (c : Char) : Bool := c.isAlphanum || c = '_'

/-- Embedding of `_read_ident`: consume a maximal run of identifier
characters, failing (first component `none`) when the run is empty. -/
def readIdentChars (cs : List Char) : Option (List Char) × List Char :=
  let pre := cs.takeWhile isIdentChar
  if pre.isEmpty then (Option.none, cs) else (some pre, cs.dropWhile isIdentChar)

theorem length_dropWhile_le (p : α → Bool) (l : List α) :
    (l.dropWhile p).length ≤ l.length := by
  induction l with
  | nil => simp [List.dropWhile]
  | cons a l ih =>
    by_cases h : p a <;> simp [List.dropWhile, h] <;> omega

theorem readIdentChars_snd_length (cs : List Char) :
    (readIdentChars cs).snd.length ≤ cs.length := by
  unfold readIdentChars
  by_cases h : (cs.takeWhile isIdentChar).isEmpty <;>
    simp [h, length_dropWhile_le]

/-- Python's quoted-string rendering helper for error messages. -/
def q (s : String) : String := "\x27" ++ s ++ "\x27"

/-- Embedding of the quoted bracket-key scanner inside `resolve_path`
(the `while` loop that consumes characters up to the closing quote,
honouring backslash escapes).  The input is the character list just after
the opening quote; on success it returns the key together with the
characters after the closing quote; `none` is the "unterminated string
key" outcome (the scanner ran off the end of the path). -/
def parseStrKey (quote : Char) : List Char → Option (String × List Char)
  | [] => Option.none
  | c :: cs =>
    if c = '\\' then
      match cs with
      | [] => Option.none
      | d :: ds =>
        match parseStrKey quote ds with
        | Option.none => Option.none
        | some (s, r) => some (⟨d :: s.data⟩, r)
    else if c = quote then some ("", cs)
    else
      match parseStrKey quote cs with
      | Option.none => Option.none
      | some (s, r) => some (⟨c :: s.data⟩, r)

theorem parseStrKey_length_bounded {quote : Char} :
    ∀ (L : Nat) (cs : List Char), cs.length ≤ L → ∀ (s : String) (r : List Char),
      parseStrKey quote cs = some (s, r) → r.length < cs.length := by
  intro L
  induction L with
  | zero =>
    intro cs hle s r h
    match cs, hle with
    | [], _ => simp [parseStrKey] at h
  | succ L ih =>
    intro cs hle s r h
    match cs, hle, h with
    | [], _, h => simp [parseStrKey] at h
    | c :: cs, hle, h =>
      rw [parseStrKey.eq_def] at h
      dsimp only at h
      by_cases hc : c = '\\'
      · rw [if_pos hc] at h
        match cs, hle, h with
        | [], _, h => simp at h
        | d :: ds, hle, h =>
          dsimp only at h
          match hk : parseStrKey quote ds with
          | Option.none => rw [hk] at h; simp at h
          | some (s0, r0) =>
            have hle' : ds.length ≤ L := by
              simp only [List.length_cons] at hle; omega
            have hlt := ih ds hle' s0 r0 hk
            rw [hk] at h
            simp only [Option.some.injEq, Prod.mk.injEq] at h
            obtain ⟨h1, h2⟩ := h
            subst h2
            simp only [List.length_cons]
            omega
      · rw [if_neg hc] at h
        by_cases hq : c = quote
        · rw [if_pos hq] at h
          simp only [Option.some.injEq, Prod.mk.injEq] at h
          obtain ⟨h1, h2⟩ := h
          subst h2
          simp
        · rw [if_neg hq] at h
          match hk : parseStrKey quote cs with
          | Option.none => rw [hk] at h; simp at h
          | some (s0, r0) =>
            have hle' : cs.length ≤ L := by
              simp only [List.length_cons] at hle; omega
            have hlt := ih cs hle' s0 r0 hk
            rw [hk] at h
            simp only [Option.some.injEq, Prod.mk.injEq] at h
            obtain ⟨h1, h2⟩ := h
            subst h2
            simp only [List.length_cons]
            omega

theorem parseStrKey_length {quote : Char} {cs : List Char} {s : String}
    {r : List Char} (h : parseStrKey quote cs = some (s, r)) :
    r.length < cs.length :=
  parseStrKey_length_bounded cs.length cs le_rfl s r h

/-- Decimal value of a digit run (the model of `int(s[start:idx])` for the
non-negative case; the scanner guarantees every character is a digit). -/
def decToNat (ds : List Char) : Nat :=
  ds.foldl (fun acc c => 10 * acc + (c.toNat - 48)) 0

/-- Python `type(value).__name__` for the model values. -/
def typeName : PyVal → String
  | .vint _ => "int"
  | .vbool _ => "bool"
  | .vstr _ => "str"
  | .vnone => "NoneType"
  | .vlist _ => "list"
  | .vdict _ => "dict"
  | .dataframe _ _ => "DataFrame"
  | .series _ => "Series"
  | .ndarray1 _ _ => "ndarray"
  | .ndarray2 _ _ => "ndarray"
  | .ndarrayN _ _ => "ndarray"
  | .dataclassV cls _ => cls
  | .cstruct cls _ => cls
  | .carray ty _ _ => ty
  | .cscalar ty _ => ty
  | .pymodule _ => "module"
  | .pyfunction _ => "function"
  | .pyclass _ => "type"
  | .callableObj cls => cls

/-- Column extraction on the DataFrame model (`df[label]` yielding a
Series, with out-of-row-bounds cells read as missing). -/
def dfColumn (columns : List String) (rows : List (List PyVal)) (k : String) :
    Option PyVal :=
  match columns.findIdx? (fun c => c = k) with
  | some i => some (.series (rows.map (fun r => r.getD i .vnone)))
  | Option.none => Option.none

/-- Embedding of `getattr(current, ident)` on the model values, with the
caught exception's message in the error channel. -/
def getattrPy (v : PyVal) (id : String) : Except String PyVal :=
  match v with
  | .dataclassV cls fields =>
    match fields.find? (fun f => f.fst = id) with
    | some f => .ok f.snd.snd
    | Option.none => .error (q cls ++ " object has no attribute " ++ q id)
  | .cstruct cls fields =>
    match fields.find? (fun f => f.fst = id) with
    | some f => .ok f.snd.snd
    | Option.none => .error (q cls ++ " object has no attribute " ++ q id)
  | .cscalar ty n =>
    if id = "value" then .ok (.vint n)
    else .error (q ty ++ " object has no attribute " ++ q id)
  | .dataframe cols rows =>
    match dfColumn cols rows id with
    | some s => .ok s
    | Option.none => .error (q "DataFrame" ++ " object has no attribute " ++ q id)
  | _ => .error (q (typeName v) ++ " object has no attribute " ++ q id)

/-- A bracket key: a (possibly negative) integer index or a string key. -/
inductive PyKey where
  | kint : Int → PyKey
  | kstr : String → PyKey

/-- Python sequence indexing with negative-index wrap-around. -/
def pyIndex (xs : List PyVal) (i : Int) : Except String PyVal :=
  let n : Int := xs.length
  let j := if i < 0 then i + n else i
  if 0 ≤ j ∧ j < n then
    .ok (xs.getD j.toNat .vnone)
  else .error "index out of range"

/-- Embedding of `current[key]` on the model values, with the caught
exception's message in the error channel (`str(KeyError(k))` is the
quoted key). -/
def getitemPy (v : PyVal) (k : PyKey) : Except String PyVal :=
  match v, k with
  | .vlist xs, .kint i => pyIndex xs i
  | .vlist _, .kstr _ => .error "list indices must be integers"
  | .vstr s, .kint i =>
    let n : Int := s.length
    let j := if i < 0 then i + n else i
    if 0 ≤ j ∧ j < n then .ok (.vstr ⟨[s.data.getD j.toNat ' ']⟩)
    else .error "string index out of range"
  | .vstr _, .kstr _ => .error "string indices must be integers"
  | .vdict kvs, .kstr s =>
    match kvs.find? (fun p => p.fst = s) with
    | some p => .ok p.snd
    | Option.none => .error (q s)
  | .vdict _, .kint i => .error (toString i)
  | .dataframe cols rows, .kstr s =>
    match dfColumn cols rows s with
    | some col => .ok col
    | Option.none => .error (q s)
  | .dataframe _ _, .kint i => .error (toString i)
  | .series xs, .kint i => pyIndex xs i
  | .series _, .kstr s => .error (q s)
  | .ndarray1 _ xs, .kint i => pyIndex (xs.map PyVal.vint) i
  | .ndarray2 dt rows, .kint i => pyIndex (rows.map (PyVal.ndarray1 dt)) i
  | .carray _ _ xs, .kint i => pyIndex xs i
  | _, _ => .error (q (typeName v) ++ " object is not subscriptable")

/-- The Python return triple of `resolve_path`. -/
abbrev PyResolve := Bool × Option PyVal × Option String

/-- One iteration of the `while idx < length` loop of `resolve_path`:
dispatch on the next character (whitespace skip, `.` attribute segment,
`[...]` bracket segment), with `recur` the continuation for the remaining
characters.  `Except.ok` carries the tuple the Python function returns;
`Except.error` is the one uncaught exception the loop can raise, the
`ValueError` from `int("")` that is reached for a bracketed key starting
with a minus sign (the scanner advances `start` past the sign but never
advances `idx`, so `s[start:idx]` is empty). -/
def walkStep (recur : List Char → PyVal → Except String PyResolve) :
    List Char → PyVal → Except String PyResolve
  | [], v => .ok (true, some v, Option.none)
  | ch :: cs, v =>
    if ch.isWhitespace then recur cs v
    else if ch = '.' then
      match readIdentChars cs with
      | (Option.none, _) => .ok (false, Option.none, some "invalid attribute")
      | (some id, rest) =>
        match getattrPy v ⟨id⟩ with
        | .error m => .ok (false, Option.none, some m)
        | .ok v2 => recur rest v2
    else if ch = '[' then
      match cs with
      | [] => .ok (false, Option.none, some "missing ]")
      | d :: ds =>
        if d = sq ∨ d = '"' then
          match parseStrKey d ds with
          | Option.none => .ok (false, Option.none, some "unterminated string key")
          | some (key, rest) =>
            match rest with
            | [] => .ok (false, Option.none, some "missing ]")
            | c2 :: rest2 =>
              if c2 = ']' then
                match getitemPy v (.kstr key) with
                | .error m => .ok (false, Option.none, some m)
                | .ok v2 => recur rest2 v2
              else .ok (false, Option.none, some "missing ]")
        else if d = '-' then
          .error "invalid literal for int() with base 10"
        else if ((d :: ds).takeWhile Char.isDigit).isEmpty then
          .ok (false, Option.none, some "invalid index")
        else
          match (d :: ds).dropWhile Char.isDigit with
          | [] => .ok (false, Option.none, some "missing ]")
          | c2 :: rest2 =>
            if c2 = ']' then
              match getitemPy v (.kint (decToNat ((d :: ds).takeWhile Char.isDigit))) with
              | .error m => .ok (false, Option.none, some m)
              | .ok v2 => recur rest2 v2
            else .ok (false, Option.none, some "missing ]")
    else .ok (false, Option.none, some "invalid character")

/-- The loop, fuel-indexed so that it is structurally recursive (each
iteration consumes at least one character, so any fuel strictly above the
remaining length suffices; see `walkF_congr`). -/
def walkF : Nat → List Char → PyVal → Except String PyResolve
  | 0, _, _ => .ok (false, Option.none, some "resolver out of fuel")
  | Nat.succ fuel, cs, v => walkStep (walkF fuel) cs v

/-- Fuel congruence: any two fuels strictly above the remaining length give
the same result (each loop iteration consumes at least one character). -/
theorem walkF_congr :
    ∀ (f g : Nat) (cs : List Char) (v : PyVal), cs.length < f → cs.length < g →
      walkF f cs v = walkF g cs v := by
  intro f
  induction f with
  | zero => intro g cs v hf hg; omega
  | succ f ih =>
    intro g cs v hf hg
    match g, hg with
    | Nat.succ g, hg => ?_
    show walkStep (walkF f) cs v = walkStep (walkF g) cs v
    match cs, hf, hg with
    | [], _, _ => rfl
    | ch :: cs, hf, hg =>
    simp only [List.length_cons] at hf hg
    rw [walkStep.eq_def]
    conv_rhs => rw [walkStep.eq_def]
    dsimp only
    by_cases hws : ch.isWhitespace = true
    · rw [if_pos hws, if_pos hws]
      exact ih g cs v (by omega) (by omega)
    · rw [if_neg hws, if_neg hws]
      by_cases hdot : ch = '.'
      · rw [if_pos hdot, if_pos hdot]
        match hride : readIdentChars cs with
        | (Option.none, _) => rfl
        | (some id, rest) =>
          have hrest : rest.length ≤ cs.length := by
            have := readIdentChars_snd_length cs
            rw [hride] at this
            exact this
          dsimp only
          match getattrPy v ⟨id⟩ with
          | .error m => rfl
          | .ok v2 => exact ih g rest v2 (by omega) (by omega)
      · rw [if_neg hdot, if_neg hdot]
        by_cases hbr : ch = '['
        · rw [if_pos hbr, if_pos hbr]
          match cs, hf, hg with
          | [], _, _ => rfl
          | d :: ds, hf, hg =>
          simp only [List.length_cons] at hf hg
          dsimp only
          by_cases hqd : d = sq ∨ d = '"'
          · rw [if_pos hqd, if_pos hqd]
            match hkey : parseStrKey d ds with
            | Option.none => rfl
            | some (key, rest) =>
              have hrest := parseStrKey_length hkey
              match rest, hrest with
              | [], _ => rfl
              | c2 :: rest2, hrest =>
                simp only [List.length_cons] at hrest
                dsimp only
                by_cases hc2 : c2 = ']'
                · rw [if_pos hc2, if_pos hc2]
                  match getitemPy v (.kstr key) with
                  | .error m => rfl
                  | .ok v2 => exact ih g rest2 v2 (by omega) (by omega)
                · rw [if_neg hc2, if_neg hc2]
          · rw [if_neg hqd, if_neg hqd]
            by_cases hmn : d = '-'
            · rw [if_pos hmn, if_pos hmn]
            · rw [if_neg hmn, if_neg hmn]
              by_cases hdig : ((d :: ds).takeWhile Char.isDigit).isEmpty = true
              · rw [if_pos hdig, if_pos hdig]
              · rw [if_neg hdig, if_neg hdig]
                have hdw : ((d :: ds).dropWhile Char.isDigit).length ≤
                    (d :: ds).length := length_dropWhile_le _ _
                match hrem : (d :: ds).dropWhile Char.isDigit with
                | [] => rfl
                | c2 :: rest2 =>
                  rw [hrem] at hdw
                  simp only [List.length_cons] at hdw
                  dsimp only
                  by_cases hc2 : c2 = ']'
                  · rw [if_pos hc2, if_pos hc2]
                    match getitemPy v
                      (.kint (decToNat ((d :: ds).takeWhile Char.isDigit))) with
                    | .error m => rfl
                    | .ok v2 => exact ih g rest2 v2 (by omega) (by omega)
                  · rw [if_neg hc2, if_neg hc2]
        · rw [if_neg hbr, if_neg hbr]

/-- The loop with its canonical (always sufficient) fuel. -/
def walk (cs : List Char) (v : PyVal) : Except String PyResolve :=
  walkF (cs.length + 1) cs v

theorem walkF_eq_walk {f : Nat} {cs : List Char} {v : PyVal}
    (h : cs.length < f) : walkF f cs v = walk cs v :=
  walkF_congr f (cs.length + 1) cs v h (by omega)

/-- The module-level bindings of `ipybridge_ns` (its `globals()` as the
module leaves them after import, before any lazy import fires): the
standard module dunders, the four imported modules, the `typing` names,
`__all__` and the module constants, and every top-level function.  Only
the NAMES matter for the lookup behaviour modelled here; values are
rendered at the granularity the `PyVal` kinds allow (modules as
`pymodule`, functions as `pyfunction`, the remaining non-representable
runtime objects — the loader, the spec, the `typing` aliases, the
`_SENTINEL` object — as opaque `callableObj` markers, and the
`_EXCLUDED_NAMES` set as a list). -/
def _module_globals : Namespace :=
  [("__name__", .vstr "ipybridge_ns"),
   ("__doc__", .vstr "Shared variable explorer helpers for ipybridge.nvim."),
   ("__package__", .vstr ""),
   ("__loader__", .callableObj "SourceFileLoader"),
   ("__spec__", .callableObj "ModuleSpec"),
   ("__file__", .vstr "ipybridge_ns.py"),
   ("__builtins__", .pymodule "builtins"),
   ("annotations", .callableObj "_Feature"),
   ("dataclasses", .pymodule "dataclasses"),
   ("sys", .pymodule "sys"),
   ("types", .pymodule "types"),
   ("Any", .callableObj "_SpecialForm"),
   ("Dict", .callableObj "_GenericAlias"),
   ("Iterable", .callableObj "_GenericAlias"),
   ("Mapping", .callableObj "_GenericAlias"),
   ("Optional", .callableObj "_SpecialForm"),
   ("Tuple", .callableObj "_GenericAlias"),
   ("__all__", .vlist [.vstr "collect_namespace", .vstr "get_var_filters",
     .vstr "list_variables", .vstr "log_debug", .vstr "preview_data",
     .vstr "resolve_path", .vstr "set_debug_logging", .vstr "set_var_filters"]),
   ("_EXCLUDED_NAMES", .vlist [.vstr "In", .vstr "Out", .vstr "exit",
     .vstr "quit", .vstr "get_ipython"]),
   ("_SENTINEL", .callableObj "object"),
   ("_NUMPY", .callableObj "object"),
   ("_PANDAS", .callableObj "object"),
   ("_CTYPES", .callableObj "object"),
   ("_DEBUG_LOG", .vbool false),
   ("_FILTERS", .vdict [("names", .vnone), ("types", .vnone),
     ("max_repr", .vint 120)]),
   ("_lazy_import", .pyfunction "_lazy_import"),
   ("set_debug_logging", .pyfunction "set_debug_logging"),
   ("log_debug", .pyfunction "log_debug"),
   ("set_var_filters", .pyfunction "set_var_filters"),
   ("get_var_filters", .pyfunction "get_var_filters"),
   ("collect_namespace", .pyfunction "collect_namespace"),
   ("_match", .pyfunction "_match"),
   ("_safe_repr", .pyfunction "_safe_repr"),
   ("_shape", .pyfunction "_shape"),
   ("_value_kind", .pyfunction "_value_kind"),
   ("_should_skip_value", .pyfunction "_should_skip_value"),
   ("_describe_value", .pyfunction "_describe_value"),
   ("list_variables", .pyfunction "list_variables"),
   ("resolve_path", .pyfunction "resolve_path"),
   ("_dataclass_preview", .pyfunction "_dataclass_preview"),
   ("_ctypes_structure_preview", .pyfunction "_ctypes_structure_preview"),
   ("_ctypes_array_preview", .pyfunction "_ctypes_array_preview"),
   ("preview_data", .pyfunction "preview_data")]

/-- Embedding of `resolve_path`, threading the namespace through so that
its preservation (the frame condition of §3 of the spec) is an explicit
theorem: the second component is the namespace as left behind by the
resolution.  Every namespace access in the source (`name not in ns`,
`ns[name]`) is a read.  The first line of the source is
`ns = namespace or globals()`: a falsy provided namespace (`None` or an
empty mapping, both modelled by the empty list) is replaced by the
module's own globals before the leading identifier is looked up. -/
def resolve_path_st (path : String) (ns : Namespace) :
    Except String PyResolve × Namespace :=
  let ens := if ns.isEmpty then _module_globals else ns
  let s := pyStrip path
  match readIdentChars s.data with
  | (Option.none, _) => (.ok (false, Option.none, some "invalid start"), ns)
  | (some nm, _) =>
    match nsFind ens ⟨nm⟩ with
    | Option.none => (.ok (false, Option.none, some "Name not found"), ns)
    | some v => (walk (readIdentChars s.data).snd v, ns)

/-- The value/err view of `resolve_path` used by the other helpers. -/
def resolve_path (path : String) (ns : Namespace) : Except String PyResolve :=
  (resolve_path_st path ns).fst

mutual

/-- Python `repr(value)` on the model values.  Third-party objects
(DataFrame / Series / ndarray / ctypes) render as an opaque marker built
from their type, which models their textual representation without
reproducing the library formatting. -/
def pyRepr : PyVal → String
  | .vint n => toString n
  | .vbool b => if b then "True" else "False"
  | .vstr s => q s
  | .vnone => "None"
  | .vlist xs => "[" ++ String.intercalate ", " (pyReprList xs) ++ "]"
  | .vdict kvs => "\x7b" ++ String.intercalate ", " (pyReprPairs kvs) ++ "\x7d"
  | .dataframe cols _ => "<DataFrame cols=" ++ toString cols.length ++ ">"
  | .series xs => "<Series len=" ++ toString xs.length ++ ">"
  | .ndarray1 dt xs => "array(" ++ dt ++ ", len=" ++ toString xs.length ++ ")"
  | .ndarray2 dt rows => "array(" ++ dt ++ ", rows=" ++ toString rows.length ++ ")"
  | .ndarrayN dt shape => "array(" ++ dt ++ ", ndim=" ++ toString shape.length ++ ")"
  | .dataclassV cls _ => cls ++ "(...)"
  | .cstruct cls _ => "<" ++ cls ++ " object>"
  | .carray ty _ _ => "<" ++ ty ++ " object>"
  | .cscalar ty n => ty ++ "(" ++ toString n ++ ")"
  | .pymodule n => "<module " ++ q n ++ ">"
  | .pyfunction n => "<function " ++ n ++ ">"
  | .pyclass n => "<class " ++ q n ++ ">"
  | .callableObj cls => "<" ++ cls ++ " object>"

def pyReprList : List PyVal → List String
  | [] => []
  | x :: xs => pyRepr x :: pyReprList xs

def pyReprPairs : List (String × PyVal) → List String
  | [] => []
  | (k, v) :: kvs => (q k ++ ": " ++ pyRepr v) :: pyReprPairs kvs

end

/-- Python `str(value)` on the model values (used for DataFrame cell
stringification): like `repr` except on strings. -/
def pyStr : PyVal → String
  | .vstr s => s
  | v => pyRepr v

/-- Embedding of `_safe_repr`: the representation truncated to `limit`
characters with a `...` marker (`repr` cannot raise in the model, so the
`<unrepr>` branch is not reachable). -/
def _safe_repr (v : PyVal) (limit : Nat) : String :=
  let rep := pyRepr v
  if rep.length > limit then ⟨rep.data.take limit⟩ ++ "..." else rep

/-- Embedding of `_shape`: numpy shape, DataFrame rows×cols, else the
plain length for sized values that are not str/bytes/dict. -/
def _shape (v : PyVal) : Option (List Nat) :=
  match v with
  | .ndarray1 _ xs => some [xs.length]
  | .ndarray2 _ rows => some [rows.length, (rows.headD []).length]
  | .ndarrayN _ shape => some shape
  | .dataframe cols rows => some [rows.length, cols.length]
  | .vlist xs => some [xs.length]
  | .series xs => some [xs.length]
  | .carray _ _ xs => some [xs.length]
  | _ => Option.none

/-- Model of `str(value.dtypes.to_dict())` for the DataFrame kind tag. -/
def dtypesRender (cols : List String) : String :=
  "\x7b" ++ String.intercalate ", " (cols.map q) ++ "\x7d"

/-- Embedding of `_value_kind`: the (kind, dtype) classification tried in
the source's priority order (ndarray, dataframe, dataclass, ctypes
structure, ctypes array). -/
def _value_kind (v : PyVal) : Option String × Option String :=
  match v with
  | .ndarray1 dt _ => (some "ndarray", some dt)
  | .ndarray2 dt _ => (some "ndarray", some dt)
  | .ndarrayN dt _ => (some "ndarray", some dt)
  | .dataframe cols _ => (some "dataframe", some (dtypesRender cols))
  | .dataclassV _ _ => (some "dataclass", Option.none)
  | .cstruct _ _ => (some "ctypes", Option.none)
  | .carray _ _ _ => (some "ctypes_array", Option.none)
  | _ => (Option.none, Option.none)

/-- Model of `isinstance(value, (types.ModuleType, types.FunctionType, type))`. -/
def _is_module_function_or_type : PyVal → Bool
  | .pymodule _ => true
  | .pyfunction _ => true
  | .pyclass _ => true
  | _ => false

/-- Model of Python `callable(value)`. -/
def _callable : PyVal → Bool
  | .pyfunction _ => true
  | .pyclass _ => true
  | .callableObj _ => true
  | _ => false

/-- Embedding of `_should_skip_value`: modules, functions, classes
(`isinstance(value, (ModuleType, FunctionType, type))`) and any callable
value are not listed as variables. -/
def _should_skip_value (v : PyVal) : Bool :=
  _is_module_function_or_type v || _callable v

/-- Embedding of `_match`: a pattern list matches a name by exact equality
or, for patterns ending in `*`, by prefix on everything before the star.
`none` models Python `None` (falsy, like the empty list). -/
def _match (name : String) (patterns : Option (List String)) : Bool :=
  match patterns with
  | Option.none => false
  | some ps =>
    ps.any fun p =>
      if pyEndsWith p "*" then pyStartsWith name (pyDropRight p 1) else name = p

/-- The process-wide filter state `_FILTERS` (names, types, max repr). -/
structure Filters where
  names : Option (List String)
  types_ : Option (List String)
  max_repr : Int
deriving DecidableEq, Repr

/-- The module-initialisation value of `_FILTERS`. -/
def _FILTERS_init : Filters :=
  { names := Option.none, types_ := Option.none, max_repr := 120 }

/-- Embedding of `set_var_filters` as a state transformer on `Filters`:
each argument updates its slot only when it is not `None`, and `max_repr`
additionally only when positive. -/
def set_var_filters (names : Option (List String))
    (types_ : Option (List String)) (max_repr : Option Int)
    (f : Filters) : Filters :=
  let f1 := match names with
    | some l => { f with names := some l }
    | Option.none => f
  let f2 := match types_ with
    | some l => { f1 with types_ := some l }
    | Option.none => f1
  match max_repr with
  | some m => if m > 0 then { f2 with max_repr := m } else f2
  | Option.none => f2

/-- The fixed pseudo-name exclusion set `_EXCLUDED_NAMES`. -/
def _EXCLUDED_NAMES : List String := ["In", "Out", "exit", "quit", "get_ipython"]

/-- One `VariableDescriptor` as produced by `_describe_value`. -/
structure Descriptor where
  type : String
  shape : Option (List Nat)
  dtype : Option String
  reprS : String
  kind : Option String
deriving DecidableEq, Repr

/-- Embedding of `_describe_value`. -/
def _describe_value (v : PyVal) (max_repr : Nat) : Descriptor :=
  { type := typeName v
    shape := _shape v
    dtype := (_value_kind v).snd
    reprS := _safe_repr v max_repr
    kind := (_value_kind v).fst }

/-- Python dict assignment `out[name] = value` on an association list:
overwrite in place when the key exists, append otherwise. -/
def assocUpdate (out : List (String × Descriptor)) (n : String)
    (v : Descriptor) : List (String × Descriptor) :=
  if (out.lookup n).isSome then
    out.map (fun p => if p.fst = n then (n, v) else p)
  else out ++ [(n, v)]

/-- The body of the `list_variables` loop for one `(name, value)` item:
apply the name filters (reserved prefix, pseudo-names, hidden-name
patterns), the value filter (`_should_skip_value`) and the hidden-type
patterns, and store the descriptor for a surviving name. -/
def lvStep (hidden_names hidden_types : Option (List String)) (mrv : Nat)
    (out : List (String × Descriptor)) (p : String × PyVal) :
    List (String × Descriptor) :=
  let name := p.fst
  let value := p.snd
  if pyStartsWith name "_" then out
  else if name ∈ _EXCLUDED_NAMES then out
  else if _match name hidden_names then out
  else if _should_skip_value value then out
  else if _match (typeName value) hidden_types then out
  else assocUpdate out name (_describe_value value mrv)

/-- Embedding of `list_variables`.  The namespace iteration is the
association list in order (Python dict iteration); names are strings by
the typing of `Namespace` (the source additionally skips non-string keys).
`filters` is the process-wide `_FILTERS` state the source reads. -/
def list_variables (ns : Namespace) (filters : Filters)
    (max_repr : Option Nat) (hide_names hide_types : Option (List String)) :
    List (String × Descriptor) :=
  let max_repr_val : Nat := match max_repr with
    | some r => if r = 0 then filters.max_repr.toNat else r
    | Option.none => filters.max_repr.toNat
  let hidden_names := match hide_names with
    | some l => some l
    | Option.none => filters.names
  let hidden_types := match hide_types with
    | some l => some l
    | Option.none => filters.types_
  ns.foldl (lvStep hidden_names hidden_types max_repr_val) []

/-- One field entry of a `dataclass` preview payload. -/
structure FieldEntry where
  fname : String
  ftype : String
  kind : String
  shape : Option (List Nat) := Option.none
  dtype : Option String := Option.none
  reprS : Option String := Option.none

/-- One field entry of a `ctypes` structure preview payload. -/
structure CField where
  fname : String
  ctype : String
  kind : String
  length : Option Nat := Option.none
  values : Option J := Option.none
  value : Option J := Option.none
  elem_ctype : Option String := Option.none

/-- A `PreviewPayload`: the tagged union `preview_data` produces, with the
`name` the source attaches to every variant. -/
inductive Preview where
  | dataframeP (name : String) (shape : List Nat) (columns : List String)
      (rows : List (List J)) : Preview
  | ndarrayP (name dtype : String) (shape : List Nat)
      (values1d : Option (List Int)) (rows2d : Option (List (List Int)))
      (reprS : Option String) : Preview
  | dataclassP (name class_name : String) (fields : List FieldEntry) : Preview
  | ctypesP (name struct_name : String) (fields : List CField) : Preview
  | ctypesArrayP (name ctype : String) (length : Nat) (values : List J) : Preview
  | objectP (name reprS : String) : Preview
  | errorP (name error : String) : Preview

/-- The `name` carried by a preview payload. -/
def Preview.pname : Preview → String
  | .dataframeP n _ _ _ => n
  | .ndarrayP n _ _ _ _ _ => n
  | .dataclassP n _ _ => n
  | .ctypesP n _ _ => n
  | .ctypesArrayP n _ _ _ => n
  | .objectP n _ => n
  | .errorP n _ => n

/-- The `error` field of a payload (`payload.get("error")`). -/
def Preview.errStr : Preview → Option String
  | .errorP _ e => some e
  | _ => Option.none

/-- Embedding of the `_unbox` helper of `_ctypes_structure_preview`,
fuel-indexed downwards: Python calls `_unbox(value, depth)` with the guard
`depth > 5`, which is `cUnbox max_cols (6 - depth) value` here (fuel 0 is
the `<depth limit>` marker).  Arrays window their elements by `max_cols`
with a `...(+n more)` sentinel; structures unbox each field; ctypes
scalars yield their `.value`; plain scalars pass through; anything else
falls back to its truncated representation. -/
def cUnbox (max_cols : Nat) : Nat → PyVal → J
  | 0, _ => .jstr "<depth limit>"
  | Nat.succ fuel, v =>
    match v with
    | .carray _ _ elems =>
      let limit := max_cols
      let shown := (elems.take limit).map (cUnbox max_cols fuel)
      .jarr (if elems.length > limit then
          shown ++ [.jstr ("...(+" ++ toString (elems.length - limit) ++ " more)")]
        else shown)
    | .cstruct _ fields =>
      .jobj (fields.map (fun f => (f.fst, cUnbox max_cols fuel f.snd.snd)))
    | .cscalar _ n => .jint n
    | .vstr s => .jstr s
    | .vint n => .jint n
    | .vbool b => .jbool b
    | .vnone => .null
    | other => .jstr (_safe_repr other 120)

/-- Embedding of `_dataclass_preview` (the source attaches `name`
afterwards; it is passed through here).  Each field is classified one
level deep: ndarray fields keep shape/dtype, dataframe fields keep shape,
everything else degrades to a truncated representation (the
`<unreadable>` branch for a failing `getattr` is not reachable in the
model, where field access is total). -/
def _dataclass_preview (name cls : String)
    (fields : List (String × String × PyVal)) : Preview :=
  .dataclassP name cls (fields.map (fun f =>
    let value := f.snd.snd
    match (_value_kind value).fst with
    | some "ndarray" =>
      { fname := f.fst, ftype := f.snd.fst, kind := "ndarray",
        shape := _shape value, dtype := (_value_kind value).snd }
    | some "dataframe" =>
      { fname := f.fst, ftype := f.snd.fst, kind := "dataframe",
        shape := _shape value }
    | _ =>
      { fname := f.fst, ftype := f.snd.fst, kind := "value",
        reprS := some (_safe_repr value 120) }))

/-- Embedding of `_ctypes_structure_preview`: each declared field is
tagged array / struct / scalar and unboxed via `cUnbox` from depth 0
(fuel 6).  The `elem_ctype` of an array field is the element type stored
on the model value (`_array_elt_type` of the declared field type). -/
def _ctypes_structure_preview (name cls : String)
    (fields : List (String × String × PyVal)) (max_cols : Nat) : Preview :=
  .ctypesP name cls (fields.map (fun f =>
    let fname := f.fst
    let fty := f.snd.fst
    let raw := f.snd.snd
    match raw with
    | .carray _ ety elems =>
      { fname, ctype := fty, kind := "array", length := some elems.length,
        values := some (cUnbox max_cols 6 raw), elem_ctype := some ety }
    | .cstruct _ _ =>
      { fname, ctype := fty, kind := "struct", value := some (cUnbox max_cols 6 raw) }
    | _ =>
      { fname, ctype := fty, kind := "scalar", value := some (cUnbox max_cols 6 raw) }))

/-- Scalar serialisation of a raw element appended by
`_ctypes_array_preview` when the element has no `.value` attribute. -/
def rawToJ : PyVal → J
  | .vint n => .jint n
  | .vbool b => .jbool b
  | .vstr s => .jstr s
  | .vnone => .null
  | v => .jstr (pyRepr v)

/-- Embedding of `_ctypes_array_preview`: the first `max_rows` elements
(`.value` of ctypes scalars, the raw element otherwise) with a
`...(+n more)` sentinel when truncated. -/
def _ctypes_array_preview (name tyName : String) (elems : List PyVal)
    (max_rows : Nat) : Preview :=
  let length := elems.length
  let limit := max_rows
  let shown := (elems.take limit).map (fun e =>
    match e with
    | .cscalar _ n => J.jint n
    | e => rawToJ e)
  .ctypesArrayP name tyName length
    (if length > limit then
      shown ++ [.jstr ("...(+" ++ toString (length - limit) ++ " more)")]
    else shown)

/-- DataFrame cell conversion inside `preview_data`: missing markers
become an explicit null, numeric/boolean scalars pass through, everything
else stringifies. -/
def dfCell : PyVal → J
  | .vnone => .null
  | .vint n => .jint n
  | .vbool b => .jbool b
  | v => .jstr (pyStr v)

/-- Embedding of `preview_data`: resolve the path, then classify in the
source's priority order (DataFrame, ndarray, dataclass, ctypes structure,
ctypes array, generic object).  A failed resolution returns an error
payload; an exception raised by `resolve_path` itself (see `walkStep`)
propagates.  The windows are `iloc[:max_rows, :max_cols]` on DataFrames
and `[:max_rows]` / `[:max_rows, :max_cols]` on arrays — the source has
no row/column offset parameters. -/
def preview_data (name : String) (ns : Namespace) (max_rows max_cols : Nat) :
    Except String Preview :=
  match resolve_path name ns with
  | .error e => .error e
  | .ok (ok, obj?, err) =>
    if ok = false then .ok (.errorP name (err.getD "Name not found"))
    else
      let obj := obj?.getD .vnone
      match obj with
      | .dataframe cols rows =>
        let frameRows := (rows.take max_rows).map (fun r => r.take max_cols)
        let frameCols := cols.take max_cols
        .ok (.dataframeP name [frameRows.length, frameCols.length] frameCols
          (frameRows.map (fun r => r.map dfCell)))
      | .ndarray1 dt xs =>
        .ok (.ndarrayP name dt [xs.length] (some (xs.take max_rows))
          Option.none Option.none)
      | .ndarray2 dt rows =>
        .ok (.ndarrayP name dt [rows.length, (rows.headD []).length]
          Option.none (some ((rows.take max_rows).map (fun r => r.take max_cols)))
          Option.none)
      | .ndarrayN dt shape =>
        .ok (.ndarrayP name dt shape Option.none Option.none
          (some (_safe_repr obj 300)))
      | .dataclassV cls fields => .ok (_dataclass_preview name cls fields)
      | .cstruct cls fields => .ok (_ctypes_structure_preview name cls fields max_cols)
      | .carray ty _ elems => .ok (_ctypes_array_preview name ty elems max_rows)
      | _ => .ok (.objectP name (_safe_repr obj 300))

/-- Embedding of `_coerce_int`: `None` falls back to the default (the
`int(value)` conversion is the identity on the model's integers). -/
def _coerce_int (value : Option Int) (default : Int) : Int :=
  match value with
  | Option.none => default
  | some v => v

/-- Python `dict.update` on association lists: overwrite in place,
append new keys in order. -/
def dictUpdate (base extra : Namespace) : Namespace :=
  extra.foldl
    (fun acc p =>
      if (acc.lookup p.fst).isSome then
        acc.map (fun kv => if kv.fst = p.fst then p else kv)
      else acc ++ [p])
    base

/-- Embedding of `collect_namespace`: merge globals, then locals, then
extra into a fresh dict (updating with an absent/empty mapping is a
no-op, which matches the source's truthiness guards). -/
def collect_namespace (globals_dict locals_dict extra : Option Namespace) :
    Namespace :=
  dictUpdate (dictUpdate (dictUpdate [] (globals_dict.getD []))
    (locals_dict.getD [])) (extra.getD [])

/-- `_MAX_CHILD_PREVIEWS`: nested previews pre-cached per variable. -/
def _MAX_CHILD_PREVIEWS : Nat := 40

/-- The per-pass mutable state of the snapshot enrichment: the visited
path set, the preview cache, and (as a ghost log for the statements
below, with no effect on behaviour) the chronological list of paths whose
preview was actually computed. -/
structure PassState where
  visited : List String
  cache : List (String × Preview)
  computed : List String

/-- The state at the start of a snapshot pass (`visited = set()`,
`cache = {}`). -/
def passInit : PassState := { visited := [], cache := [], computed := [] }

/-- Embedding of `_cache_preview`: serve from the cache, refuse paths
already visited, otherwise mark visited, resolve and preview.  The
`resolve_path` call sits outside the `try`, so its exception (see
`walkStep`) escapes with the visited mark already made — the error
channel carries it alongside the mutated state. -/
def _cache_preview (name : String) (ns : Namespace) (rows cols : Nat)
    (st : PassState) : Except String (Option Preview) × PassState :=
  if name = "" then (.ok Option.none, st)
  else match st.cache.lookup name with
  | some p => (.ok (some p), st)
  | Option.none =>
    if name ∈ st.visited then (.ok (st.cache.lookup name), st)
    else
      let st1 : PassState :=
        { st with visited := name :: st.visited,
                  computed := st.computed ++ [name] }
      match resolve_path name ns with
      | .error e => (.error e, st1)
      | .ok (ok, _, err) =>
        let p :=
          if ok = false then Preview.errorP name (err.getD "Name not found")
          else
            match preview_data name ns rows cols with
            | .ok p => p
            | .error e => .errorP name ("preview error: " ++ e)
        (.ok (some p), { st1 with cache := st1.cache ++ [(name, p)] })

/-- Embedding of `_child_preview_paths`: field paths (`base.field`) for
record kinds, bracket-key column paths (`base['col']`) for dataframes,
at most `remaining` of them, nothing for other kinds. -/
def _child_preview_paths (name : String) (p : Preview) (remaining : Nat) :
    List String :=
  if remaining = 0 then []
  else
    match p with
    | .ctypesP _ _ fields =>
      (((fields.map (fun f => f.fname)).filter (fun s => s ≠ "")).take remaining).map
        (fun f => name ++ "." ++ f)
    | .dataclassP _ _ fields =>
      (((fields.map (fun f => f.fname)).filter (fun s => s ≠ "")).take remaining).map
        (fun f => name ++ "." ++ f)
    | .dataframeP _ _ columns _ =>
      ((columns.filter (fun s => s ≠ "")).take remaining).map
        (fun c => name ++ "[\x27" ++ c ++ "\x27]")
    | _ => []

/-- The breadth-first drill-down loop inside `enrich`, fuel-indexed so it
is structurally recursive and computable (the fuel seeded by `enrichVar`
always suffices: every iteration pops one queue entry, entries are pushed
only together with a budget decrement and at most `remaining` at a time,
so the iteration count is below `queue.length + remaining² + 1`).
Returns the final state, the child map in chronological order, and the
escaping exception, if any. -/
def bfsF (ns : Namespace) (rows cols : Nat) :
    Nat → List String → Nat → PassState →
    PassState × List (String × Preview) × Option String
  | 0, _, _, st => (st, [], Option.none)
  | Nat.succ fuel, queue, remaining, st =>
    match queue, remaining with
    | [], _ => (st, [], Option.none)
    | _ :: _, 0 => (st, [], Option.none)
    | child :: rest, Nat.succ r =>
      match _cache_preview child ns rows cols st with
      | (.error e, st1) => (st1, [], some e)
      | (.ok Option.none, st1) => bfsF ns rows cols fuel rest (r + 1) st1
      | (.ok (some p), st1) =>
        let extra := _child_preview_paths child p r
        let queue2 := extra.foldl
          (fun acc g => if g ∈ st1.visited ∨ g ∈ acc then acc else acc ++ [g])
          rest
        let res := bfsF ns rows cols fuel queue2 r st1
        (res.fst, (child, p) :: res.snd.fst, res.snd.snd)

/-- Processing of one surviving name inside `enrich`: compute (or fetch)
its preview, then drill down breadth-first with a fresh
`_MAX_CHILD_PREVIEWS` budget. -/
def enrichVar (ns : Namespace) (rows cols : Nat) (name : String)
    (st : PassState) : PassState × List (String × Preview) × Option String :=
  match _cache_preview name ns rows cols st with
  | (.error e, st1) => (st1, [], some e)
  | (.ok Option.none, st1) => (st1, [], Option.none)
  | (.ok (some p), st1) =>
    let queue := _child_preview_paths name p _MAX_CHILD_PREVIEWS
    bfsF ns rows cols
      (queue.length + _MAX_CHILD_PREVIEWS * _MAX_CHILD_PREVIEWS + 1)
      queue _MAX_CHILD_PREVIEWS st1

/-- The `enrich` loop over one scope map's names; an escaping exception
aborts the remaining names (it propagates out of `enrich`). -/
def enrichScope (ns : Namespace) (rows cols : Nat) :
    List String → PassState → PassState × Option String
  | [], st => (st, Option.none)
  | n :: rest, st =>
    match enrichVar ns rows cols n st with
    | (st1, _, some e) => (st1, some e)
    | (st1, _, Option.none) => enrichScope ns rows cols rest st1

/-- The two `enrich` calls of `_myipy_emit_debug_vars` — locals first,
then globals — from a fresh pass state, with an escaping exception
aborting everything that follows it. -/
def runPass (ns1 : Namespace) (rows cols : Nat) (names1 names2 : List String) :
    PassState × Option String :=
  match enrichScope ns1 rows cols names1 passInit with
  | (st1, some e) => (st1, some e)
  | (st1, Option.none) => enrichScope ns1 rows cols names2 st1

/-- The snapshot construction of `_myipy_emit_debug_vars`: list the frame
locals (when a frame with non-empty locals is present), list the globals
(dropped again when a frame is present), then enrich both scope maps
against the merged namespace with one shared visited set and cache.
`frame` carries the frame's `(f_globals, f_locals)`; `gl` is the process
`globals()`; `rows`/`cols` are the current `_PREVIEW_LIMITS` (the model
takes the non-negative case).  Returns the final pass state and the
exception that aborted the pass, if any. -/
def _myipy_emit_debug_vars (frame : Option (Namespace × Namespace))
    (gl : Namespace) (filters : Filters) (rows cols : Nat) :
    PassState × Option String :=
  let nsAll := match frame with
    | some (fg, fl) => collect_namespace (some fg) (some fl) Option.none
    | Option.none => collect_namespace (some gl) Option.none Option.none
  let mr : Nat := if filters.max_repr.toNat = 0 then 120 else filters.max_repr.toNat
  let locals_data := match frame with
    | some (_, fl) =>
      if fl.isEmpty then []
      else list_variables (collect_namespace Option.none (some fl) Option.none)
        filters (some mr) filters.names filters.types_
    | Option.none => []
  let globals_base := match frame with
    | some (fg, _) => if fg.isEmpty then gl else fg
    | Option.none => gl
  let globals_data0 := list_variables
    (collect_namespace (some globals_base) Option.none Option.none)
    filters (some mr) filters.names filters.types_
  let globals_data := if frame.isSome then [] else globals_data0
  runPass nsAll rows cols (locals_data.map (fun p => p.fst))
    (globals_data.map (fun p => p.fst))

/-- The keyword parameters accepted by `preview_data`
(`ipybridge_ns.py`). -/
def preview_data_params : List String := ["name", "namespace", "max_rows", "max_cols"]

/-- The keyword arguments `_DebugPreviewContext.compute` and
`__mi_preview` pass to `_ipy_preview_data`. -/
def preview_call_kwargs : List String :=
  ["namespace", "max_rows", "max_cols", "row_offset", "col_offset"]

/-- The first keyword argument of the call that `preview_data` does not
accept (Python raises `TypeError` for it at call time). -/
def unexpected_kwarg : Option String :=
  preview_call_kwargs.find? (fun k => !(preview_data_params.contains k))

/-- The call `_ipy_preview_data(name, namespace=..., max_rows=...,
max_cols=..., row_offset=..., col_offset=...)` as written in
`bootstrap_helpers.py`: Python matches the keywords against the callee's
parameter list before running the body, so an unexpected keyword raises
`TypeError` without entering `preview_data`.  (The `toNat` coercions are
irrelevant: with the source's parameter list the matching branch is
unreachable.) -/
def call_preview_data_kwargs (name : String) (ns : Namespace)
    (max_rows max_cols row_offset col_offset : Int) : Except String Preview :=
  match unexpected_kwarg with
  | some k => .error ("preview_data() got an unexpected keyword argument " ++ q k)
  | Option.none =>
    let _ := row_offset
    let _ := col_offset
    preview_data name ns max_rows.toNat max_cols.toNat

/-- `_DebugPreviewContext` as read by `compute`: the captured namespace
slot, the namespace a captured frame would rebuild to (`some` iff a frame
is captured), the captured globals slot, the process globals for the
final rebuild fallback, and the captured preview limits (positive by
`capture`). -/
structure DebugCtx where
  namespaceQ : Option Namespace
  frameNs : Option Namespace
  globalsQ : Option Namespace
  processGlobals : Namespace
  rows : Nat
  cols : Nat

/-- Embedding of `_DebugPreviewContext.compute`: coerce the limits and
offsets, pick a namespace (captured → frame rebuild → captured globals →
fresh rebuild), fail with `debug namespace unavailable` when none is
non-empty, otherwise attempt the preview call (whose keyword arguments
`preview_data` rejects — the caught `TypeError` becomes the
`preview error: ...` payload).  The returned context reflects the rebuilt
namespace caching the source performs. -/
def DebugCtx.compute (ctx : DebugCtx) (name : String)
    (rows cols row_offset col_offset : Option Int) : Preview × DebugCtx :=
  let effective_rows : Nat := match rows with
    | some r => if r ≤ 0 then ctx.rows else r.toNat
    | Option.none => ctx.rows
  let effective_cols : Nat := match cols with
    | some c => if c ≤ 0 then ctx.cols else c.toNat
    | Option.none => ctx.cols
  let row_base : Int := max (_coerce_int row_offset 0) 0
  let col_base : Int := max (_coerce_int col_offset 0) 0
  let pick : Option Namespace × DebugCtx :=
    match ctx.namespaceQ with
    | some ns0 => (some ns0, ctx)
    | Option.none =>
      match ctx.frameNs with
      | some rebuilt => (some rebuilt, { ctx with namespaceQ := some rebuilt })
      | Option.none =>
        match ctx.globalsQ with
        | some g => (some g, ctx)
        | Option.none =>
          if ctx.processGlobals.isEmpty then (Option.none, ctx)
          else (some ctx.processGlobals,
            { ctx with namespaceQ := some ctx.processGlobals })
  match pick with
  | (Option.none, ctx2) => (.errorP name "debug namespace unavailable", ctx2)
  | (some ns0, ctx2) =>
    if ns0.isEmpty then (.errorP name "debug namespace unavailable", ctx2)
    else
      match call_preview_data_kwargs name ns0 effective_rows effective_cols
        row_base col_base with
      | .ok p => (p, ctx2)
      | .error e => (.errorP name ("preview error: " ++ e), ctx2)

/-- A decoded debug-socket request: either the decode-error marker
`_read_request` produces for undecodable bytes, or a preview request with
its optional JSON fields. -/
inductive Request where
  | decodeErr (msg : String) : Request
  | preview (name : String)
      (max_rows max_cols row_offset col_offset : Option Int) : Request

/-- One debug-socket response line. -/
structure Response where
  ok : Bool
  data : Option Preview
  error : Option String

/-- Embedding of `_DebugPreviewServer._build_response`: a decode error
yields `ok = false` with the error at the transport level; everything
else is served through `compute` with `ok = true` and the payload (and
any resolution failure) inside `data`. -/
def _build_response (ctx : DebugCtx) (req : Request) : Response × DebugCtx :=
  match req with
  | .decodeErr m => ({ ok := false, data := Option.none, error := some m }, ctx)
  | .preview name rows cols ro co =>
    let (d, ctx2) := ctx.compute name rows cols ro co
    ({ ok := true, data := some d, error := Option.none }, ctx2)

/-- What `_read_request` produced for one accepted connection: the read
itself raised, the peer sent no data (`None`, the loop continues), or a
decoded request (possibly the decode-error marker). -/
inductive ReadEvent where
  | readRaises (msg : String) : ReadEvent
  | nodata : ReadEvent
  | request (req : Request) : ReadEvent

/-- One iteration's input to the accept loop: either `accept` itself
raised (which breaks the loop) or a connection with its read outcome and
whether `sendall` fails. -/
inductive ConnEvent where
  | acceptFail (msg : String) : ConnEvent
  | conn (re : ReadEvent) (sendFails : Bool) : ConnEvent

/-- The observable outcome of handling one connection: the response that
was sent (if any), the fault that was caught and logged (if any), and
whether the connection was closed (the `finally` block). -/
structure ConnOutcome where
  response : Option Response
  fault : Option String
  closed : Bool

/-- Handling of one accepted connection inside `_serve`: the inner
`try/except/finally` — read, build, send, with every fault caught and
the connection closed unconditionally. -/
def handleConn (ctx : DebugCtx) : ReadEvent → Bool → ConnOutcome × DebugCtx
  | .readRaises m, _ =>
    ({ response := Option.none, fault := some m, closed := true }, ctx)
  | .nodata, _ =>
    ({ response := Option.none, fault := Option.none, closed := true }, ctx)
  | .request req, sendFails =>
    let (resp, ctx2) := _build_response ctx req
    if sendFails then
      ({ response := Option.none, fault := some "send failed", closed := true }, ctx2)
    else
      ({ response := some resp, fault := Option.none, closed := true }, ctx2)

/-- Embedding of the `_DebugPreviewServer._serve` accept loop over a
(finite prefix of the) stream of accept results: a failing `accept`
breaks the loop; every connection is handled by the guarded per-connection
block and the loop continues. -/
def _serve (ctx : DebugCtx) : List ConnEvent → List ConnOutcome
  | [] => []
  | .acceptFail _ :: _ => []
  | .conn re sf :: rest =>
    let (o, ctx2) := handleConn ctx re sf
    o :: _serve ctx2 rest

/-- The module-initialisation value of `_PREVIEW_LIMITS` (rows, cols). -/
def _PREVIEW_LIMITS_init : Int × Int := (30, 20)

/-- Embedding of `__mi_preview`: coerce the limits (updating the
process-wide `_PREVIEW_LIMITS`, returned alongside), clamp the offsets to
zero, and call `_ipy_preview_data` with the full keyword set — which
`preview_data` rejects, so the call raises and the exception escapes
(`__mi_preview` has no handler around it). -/
def __mi_preview (name : String) (ns : Namespace)
    (max_rows max_cols row_offset col_offset : Option Int)
    (limits : Int × Int) : Except String Preview × (Int × Int) :=
  let rows := _coerce_int max_rows (if limits.fst = 0 then 30 else limits.fst)
  let cols := _coerce_int max_cols (if limits.snd = 0 then 20 else limits.snd)
  let limits2 := (rows, cols)
  let row_off := max (_coerce_int row_offset 0) 0
  let col_off := max (_coerce_int col_offset 0) 0
  (call_preview_data_kwargs name ns rows cols row_off col_off, limits2)

/-! ## Concrete fixtures and probes used by the claim theorems -/

/-- A 30-row, single-column table. -/
def df30 : PyVal := .dataframe ["c"] ((List.range 30).map (fun i => [PyVal.vint i]))

/-- A namespace holding the 30-row table under `t`. -/
def ns30 : Namespace := [("t", df30)]

/-- Probe: the integer in the first cell of a dataframe payload. -/
def firstCellInt : Except String Preview → Option Int
  | .ok (.dataframeP _ _ _ ((J.jint n :: _) :: _)) => some n
  | _ => Option.none

/-- Probe: the error string inside an (optional) error payload. -/
def dataErrProbe : Option Preview → Option String
  | some (.errorP _ e) => some e
  | _ => Option.none

/-- Probe: the success flag of a resolution result. -/
def okFlag : Except String PyResolve → Bool
  | .ok (b, _, _) => b
  | .error _ => false

/-! ## Claim theorems -/

/-- C1 (code evaluated at the failing input): the preview stack has no
working row offset.  At a 30-row table, requesting rows `[10,20)` through
`__mi_preview('t', max_rows=10, ..., row_offset=10, ...)` raises the
`TypeError` for the unexpected `row_offset` keyword (`preview_data` takes
none), so the claimed composition is impossible; moreover the window
`preview_data` actually computes is always `rows[:max_rows]` from the top
— at this input rows `[0,10)` and not the claimed `[10,20)`. -/
theorem preview_row_offset_window_bug :
    (__mi_preview "t" ns30 (some 10) (some 20) (some 10) (some 0)
        _PREVIEW_LIMITS_init).fst =
      .error "preview_data() got an unexpected keyword argument \x27row_offset\x27" ∧
    preview_data "t" ns30 10 20 =
      .ok (.dataframeP "t" [10, 1] ["c"]
        (((List.range 30).map (fun i => [J.jint (i : Int)])).take 10)) ∧
    preview_data "t" ns30 10 20 ≠
      .ok (.dataframeP "t" [10, 1] ["c"]
        ((((List.range 30).map (fun i => [J.jint (i : Int)])).drop 10).take 10)) :=
  ⟨rfl, rfl, fun h => absurd (congrArg firstCellInt h) (by decide)⟩

/-- The captured debug context for the C3 failing input: a non-empty
captured namespace that does not contain the requested name. -/
def ctxC3 : DebugCtx :=
  { namespaceQ := some [("x", .vint 1)], frameNs := Option.none,
    globalsQ := Option.none, processGlobals := [], rows := 30, cols := 20 }

/-- C3 (code evaluated at the failing input): for a debug-socket request
whose name is absent from the captured namespace the server does keep
`ok = true` and report the failure inside the payload, but the error
string is `preview error: preview_data() got an unexpected keyword
argument 'row_offset'` — `compute` forwards `row_offset`/`col_offset`
keywords that `preview_data` rejects, so the `TypeError` is caught before
name resolution ever runs and the claimed `Name not found` payload is
never produced. -/
theorem debug_socket_missing_name_bug :
    (_build_response ctxC3
        (.preview "missing" (some 30) (some 20) (some 0) (some 0))).fst.ok = true ∧
    (_build_response ctxC3
        (.preview "missing" (some 30) (some 20) (some 0) (some 0))).fst.data =
      some (.errorP "missing"
        "preview error: preview_data() got an unexpected keyword argument \x27row_offset\x27") ∧
    (_build_response ctxC3
        (.preview "missing" (some 30) (some 20) (some 0) (some 0))).fst.data ≠
      some (.errorP "missing" "Name not found") :=
  ⟨rfl, rfl, fun h => absurd (congrArg dataErrProbe h) (by decide)⟩

/-- C8: the accept loop isolates per-connection faults.  Whatever a
connection's read outcome is (a raised read, no data, a decode error, a
request whose preview computation degrades to an error payload) and
whether or not the send fails, the loop emits that connection's outcome
with the connection closed and continues serving the remaining events
unchanged; only an `accept` failure ends the loop. -/
theorem serve_isolates_connection_faults :
    ∀ (ctx : DebugCtx) (re : ReadEvent) (sf : Bool) (rest : List ConnEvent),
      _serve ctx (ConnEvent.conn re sf :: rest) =
        (handleConn ctx re sf).fst :: _serve (handleConn ctx re sf).snd rest ∧
      (handleConn ctx re sf).fst.closed = true := by
  intro ctx re sf rest
  refine ⟨rfl, ?_⟩
  cases re with
  | readRaises m => rfl
  | nodata => rfl
  | request req =>
    show (handleConn ctx (.request req) sf).fst.closed = true
    unfold handleConn
    rcases _build_response ctx req with ⟨resp, ctx2⟩
    cases sf <;> rfl

/-- C10: the process-wide `max_repr` filter is initialised to 120 and
`set_var_filters` replaces it only for a positive argument: with the
argument absent or non-positive the stored value is untouched, and a
positive stored value stays positive across every call. -/
theorem set_var_filters_max_repr_invariant :
    _FILTERS_init.max_repr = 120 ∧
    (∀ (n t : Option (List String)) (m : Option Int) (f : Filters),
      (m = Option.none ∨ ∃ x, m = some x ∧ x ≤ 0) →
      (set_var_filters n t m f).max_repr = f.max_repr) ∧
    (∀ (n t : Option (List String)) (m : Option Int) (f : Filters),
      0 < f.max_repr → 0 < (set_var_filters n t m f).max_repr) := by
  refine ⟨rfl, ?_, ?_⟩
  · intro n t m f hm
    unfold set_var_filters
    rcases hm with h | ⟨x, hx, hxle⟩
    · subst h
      cases n <;> cases t <;> rfl
    · subst hx
      have hng : ¬ (x > 0) := by omega
      cases n <;> cases t <;> simp [hng]
  · intro n t m f hf
    unfold set_var_filters
    cases m with
    | none => cases n <;> cases t <;> simpa using hf
    | some x =>
      by_cases hx : x > 0
      · cases n <;> cases t <;> simp [hx] <;> omega
      · cases n <;> cases t <;> simp [hx] <;> simpa using hf

/-- Witness for C10 at concrete inputs: a negative argument leaves the
initial value, and the invariant holds across an arbitrary call. -/
theorem set_var_filters_max_repr_invariant_witness :
    (set_var_filters Option.none Option.none (some (-5)) _FILTERS_init).max_repr =
      _FILTERS_init.max_repr ∧
    0 < (set_var_filters (some ["a"]) Option.none (some 77) _FILTERS_init).max_repr :=
  ⟨set_var_filters_max_repr_invariant.2.1 Option.none Option.none (some (-5))
      _FILTERS_init (Or.inr ⟨-5, rfl, by decide⟩),
    set_var_filters_max_repr_invariant.2.2 (some ["a"]) Option.none (some 77)
      _FILTERS_init (by decide)⟩

/-- Counterexample to C4 as stated: the first identifier is NOT always
looked up only in the provided namespace.  The source's first line is
`ns = namespace or globals()`, so a falsy (empty) provided namespace is
replaced by the module's own globals: `sys` is no key of `{}`, yet
`resolve_path("sys", {})` succeeds with the `sys` module instead of
failing with `"Name not found"`. -/
theorem resolve_path_globals_fallback_counterexample :
    nsFind [] "sys" = Option.none ∧
    resolve_path "sys" [] = .ok (true, some (.pymodule "sys"), Option.none) ∧
    resolve_path "sys" [] ≠
      .ok (false, Option.none, some "Name not found") :=
  ⟨rfl, rfl, fun h => absurd (congrArg okFlag h) (by decide)⟩

/-- C4 (amended): whenever the provided namespace is non-empty (truthy),
the leading identifier is looked up only in that namespace, and a path
whose leading identifier is not one of its top-level keys fails with
`(False, None, "Name not found")`; an empty (falsy) namespace is first
replaced by the module's own globals (`ns = namespace or globals()`), so
the claim's flagship instance `resolve("missing", {})` still yields
`(False, None, "Name not found")` only because `missing` is not a module
global either. -/
theorem resolve_path_name_not_found
    (ns : Namespace) (path : String) (nm : List Char)
    (hns : ns ≠ [])
    (h1 : (readIdentChars (pyStrip path).data).fst = some nm)
    (h2 : nsFind ns ⟨nm⟩ = Option.none) :
    resolve_path path ns = .ok (false, Option.none, some "Name not found") ∧
      resolve_path "missing" [] =
        .ok (false, Option.none, some "Name not found") := by
  constructor
  · unfold resolve_path resolve_path_st
    have hemp : ns.isEmpty = false := by
      cases ns with
      | nil => exact absurd rfl hns
      | cons p rest => rfl
    rw [hemp]
    dsimp only
    rcases hE : readIdentChars (pyStrip path).data with ⟨o, rest⟩
    rw [hE] at h1
    simp only at h1
    subst h1
    dsimp only
    have hite : (if (false = true) then _module_globals else ns) = ns := rfl
    rw [hite, h2]
  · rfl

/-- Witness for C4 (amended): a singleton namespace without the key
`missing` refuses `resolve("missing", ...)`, and `resolve("missing", {})`
is `(False, None, "Name not found")` as the claim's example demands. -/
theorem resolve_path_name_not_found_witness :
    ([("x", PyVal.vint 1)] ≠ ([] : Namespace)) ∧
      (resolve_path "missing" [("x", PyVal.vint 1)] =
          .ok (false, Option.none, some "Name not found") ∧
        resolve_path "missing" [] =
          .ok (false, Option.none, some "Name not found")) :=
  ⟨List.cons_ne_nil _ _,
    resolve_path_name_not_found [("x", PyVal.vint 1)] "missing" "missing".data
      (List.cons_ne_nil _ _) rfl rfl⟩

/-- C7: `resolve_path` never mutates the namespace: the state-threaded
resolver hands back the namespace it was given, for every path, whether
resolution succeeds, fails, or raises — every namespace access in the
source is a read (membership test and key lookup), and the walk touches
only the resolved values. -/
theorem resolve_path_preserves_namespace :
    ∀ (path : String) (ns : Namespace), (resolve_path_st path ns).snd = ns := by
  intro path ns
  unfold resolve_path_st
  dsimp only
  rcases hE : readIdentChars (pyStrip path).data with ⟨o, rest⟩
  cases o with
  | none => rfl
  | some nm =>
    dsimp only
    cases hF : nsFind (if ns.isEmpty then _module_globals else ns) ⟨nm⟩ <;> rfl

/-- A name is listable against `ns`: it avoids the reserved prefix and
the pseudo-name set, and every value it is bound to survives the value
filter. -/
def GoodName (ns : Namespace) (nm : String) : Prop :=
  ¬ pyStartsWith nm "_" = true ∧ nm ∉ _EXCLUDED_NAMES ∧
    ∀ v, (nm, v) ∈ ns → _should_skip_value v = false

theorem nodup_keys_unique {ns : Namespace}
    (h : (ns.map Prod.fst).Nodup) {n : String} {a b : PyVal}
    (ha : (n, a) ∈ ns) (hb : (n, b) ∈ ns) : a = b := by
  induction ns with
  | nil => cases ha
  | cons p rest ih =>
    simp only [List.map_cons, List.nodup_cons] at h
    obtain ⟨hni, hnd⟩ := h
    rcases List.mem_cons.mp ha with ha1 | ha1 <;>
      rcases List.mem_cons.mp hb with hb1 | hb1
    · exact ((Prod.mk.injEq _ _ _ _).mp (ha1.trans hb1.symm)).2
    · exfalso
      apply hni
      have hpn : p.fst = n := (congrArg Prod.fst ha1).symm
      rw [hpn]
      exact List.mem_map.mpr ⟨(n, b), hb1, rfl⟩
    · exfalso
      apply hni
      have hpn : p.fst = n := (congrArg Prod.fst hb1).symm
      rw [hpn]
      exact List.mem_map.mpr ⟨(n, a), ha1, rfl⟩
    · exact ih hnd ha1 hb1

theorem mem_assocUpdate {out : List (String × Descriptor)} {n : String}
    {v : Descriptor} {nm : String} {d : Descriptor}
    (h : (nm, d) ∈ assocUpdate out n v) : nm = n ∨ (nm, d) ∈ out := by
  unfold assocUpdate at h
  by_cases hc : (out.lookup n).isSome = true
  · rw [if_pos hc] at h
    obtain ⟨p, hp, he⟩ := List.mem_map.mp h
    by_cases hpn : p.fst = n
    · rw [if_pos hpn] at he
      left
      exact (congrArg Prod.fst he).symm
    · rw [if_neg hpn] at he
      right
      rw [← he]
      exact hp
  · rw [if_neg hc] at h
    rcases List.mem_append.mp h with h1 | h1
    · right; exact h1
    · left
      exact congrArg Prod.fst (List.mem_singleton.mp h1)

theorem lvStep_good {ns : Namespace} (hnd : (ns.map Prod.fst).Nodup)
    {hidden_names hidden_types : Option (List String)} {mrv : Nat}
    {out : List (String × Descriptor)} {pn : String} {pv : PyVal}
    (hp : (pn, pv) ∈ ns)
    (hout : ∀ nm d, (nm, d) ∈ out → GoodName ns nm) :
    ∀ nm d, (nm, d) ∈ lvStep hidden_names hidden_types mrv out (pn, pv) →
      GoodName ns nm := by
  intro nm d h
  unfold lvStep at h
  dsimp only at h
  by_cases h1 : pyStartsWith pn "_" = true
  · rw [if_pos h1] at h; exact hout nm d h
  · rw [if_neg h1] at h
    by_cases h2 : pn ∈ _EXCLUDED_NAMES
    · rw [if_pos h2] at h; exact hout nm d h
    · rw [if_neg h2] at h
      by_cases h3 : _match pn hidden_names = true
      · rw [if_pos h3] at h; exact hout nm d h
      · rw [if_neg h3] at h
        by_cases h4 : _should_skip_value pv = true
        · rw [if_pos h4] at h; exact hout nm d h
        · rw [if_neg h4] at h
          by_cases h5 : _match (typeName pv) hidden_types = true
          · rw [if_pos h5] at h; exact hout nm d h
          · rw [if_neg h5] at h
            rcases mem_assocUpdate h with he | hmem
            · subst he
              refine ⟨h1, h2, ?_⟩
              intro v hv
              have hveq := nodup_keys_unique hnd hv hp
              rw [hveq]
              exact Bool.eq_false_iff.mpr h4
            · exact hout nm d hmem

/-- C6: `list_variables` never lists a name that starts with the
reserved underscore prefix, nor one of the fixed pseudo-names
(`In`, `Out`, `exit`, `quit`, `get_ipython`), nor a name whose value is
a callable, a function, a class, or a module — for every namespace
(with dict-unique keys), every filter state and every name/type filter
argument. -/
theorem list_variables_excludes
    (ns : Namespace) (filters : Filters) (mr : Option Nat)
    (hn ht : Option (List String)) (name : String) (d : Descriptor)
    (hnd : (ns.map Prod.fst).Nodup)
    (hmem : (name, d) ∈ list_variables ns filters mr hn ht) :
    ¬ pyStartsWith name "_" = true ∧ name ∉ _EXCLUDED_NAMES ∧
      ∀ v, (name, v) ∈ ns → _should_skip_value v = false := by
  unfold list_variables at hmem
  dsimp only at hmem
  suffices h : ∀ (l : List (String × PyVal)) (out : List (String × Descriptor)),
      (∀ p, p ∈ l → p ∈ ns) →
      (∀ nm d0, (nm, d0) ∈ out → GoodName ns nm) →
      ∀ nm d0, (nm, d0) ∈ l.foldl (lvStep
        (match hn with | some l0 => some l0 | Option.none => filters.names)
        (match ht with | some l0 => some l0 | Option.none => filters.types_)
        (match mr with
          | some r => if r = 0 then filters.max_repr.toNat else r
          | Option.none => filters.max_repr.toNat)) out →
      GoodName ns nm by
    exact h ns [] (fun p hp => hp) (fun nm d0 h0 => absurd h0 (List.not_mem_nil _))
      name d hmem
  intro l
  induction l with
  | nil =>
    intro out hsub hout nm d0 h0
    exact hout nm d0 h0
  | cons p rest ih =>
    intro out hsub hout nm d0 h0
    obtain ⟨pn, pv⟩ := p
    rw [List.foldl_cons] at h0
    exact ih _ (fun p0 hp0 => hsub p0 (List.mem_cons_of_mem _ hp0))
      (lvStep_good hnd (hsub (pn, pv) (List.mem_cons_self _ _)) hout) nm d0 h0

/-- Witness for C6 at a concrete namespace: `x` is listed and satisfies
every exclusion guarantee, while `_h` (reserved prefix) and `f` (a
function value) are the kinds of entries the claim rules out. -/
theorem list_variables_excludes_witness :
    ¬ pyStartsWith "x" "_" = true ∧ ("x" : String) ∉ _EXCLUDED_NAMES ∧
      ∀ v, (("x" : String), v) ∈
        ([("x", PyVal.vint 5), ("_h", PyVal.vint 1),
          ("f", PyVal.pyfunction "f")] : Namespace) →
        _should_skip_value v = false :=
  list_variables_excludes
    [("x", PyVal.vint 5), ("_h", PyVal.vint 1), ("f", PyVal.pyfunction "f")]
    _FILTERS_init (some 120) Option.none Option.none
    "x" (_describe_value (PyVal.vint 5) 120)
    (by decide) (by decide)

/-! ## State lemmas for the snapshot pass (C2, C9) -/

theorem cache_preview_cases (name : String) (ns : Namespace) (rows cols : Nat)
    (st : PassState) :
    ((_cache_preview name ns rows cols st).snd = st) ∨
    (name ∉ st.visited ∧
      (_cache_preview name ns rows cols st).snd.visited = name :: st.visited ∧
      (_cache_preview name ns rows cols st).snd.computed = st.computed ++ [name] ∧
      (_cache_preview name ns rows cols st).fst ≠ .ok Option.none) := by
  unfold _cache_preview
  split
  · left; rfl
  · split
    · left; rfl
    · split
      · left; rfl
      · next hv =>
        right
        refine ⟨hv, ?_⟩
        split
        · exact ⟨rfl, rfl, by simp⟩
        · exact ⟨rfl, rfl, by simp⟩

theorem cache_preview_computed_le (name : String) (ns : Namespace)
    (rows cols : Nat) (st : PassState) :
    (_cache_preview name ns rows cols st).snd.computed.length ≤
      st.computed.length + 1 := by
  rcases cache_preview_cases name ns rows cols st with h | ⟨-, -, h, -⟩
  · rw [h]; omega
  · rw [h]; simp

/-- The budget bound of the drill-down loop: however much fuel it is run
with, the loop computes at most `remaining` previews beyond the state it
started from. -/
theorem bfsF_computed_le (ns : Namespace) (rows cols : Nat) :
    ∀ (fuel : Nat) (queue : List String) (remaining : Nat) (st : PassState),
      (bfsF ns rows cols fuel queue remaining st).fst.computed.length ≤
        st.computed.length + remaining := by
  intro fuel
  induction fuel with
  | zero => intro queue remaining st; simp [bfsF]
  | succ fuel ih =>
    intro queue remaining st
    match queue, remaining with
    | [], _ => simp [bfsF]
    | _ :: _, 0 => simp [bfsF]
    | child :: rest, Nat.succ r =>
      rw [bfsF]
      have hgrow := cache_preview_computed_le child ns rows cols st
      cases hc : _cache_preview child ns rows cols st with
      | mk res st1 =>
        rw [hc] at hgrow
        have hgrow1 : st1.computed.length ≤ st.computed.length + 1 := hgrow
        cases res with
        | error e => dsimp only; omega
        | ok o =>
          cases o with
          | none =>
            dsimp only
            have hrec := ih rest (r + 1) st1
            have hst1 : st1 = st := by
              rcases cache_preview_cases child ns rows cols st with h | ⟨-, -, -, hne⟩
              · rw [hc] at h; exact h
              · rw [hc] at hne
                exact absurd rfl hne
            rw [hst1] at hrec ⊢
            omega
          | some p =>
            dsimp only
            have hrec := ih
              ((_child_preview_paths child p r).foldl
                (fun acc g => if g ∈ st1.visited ∨ g ∈ acc then acc else acc ++ [g])
                rest) r st1
            omega

/-- C2 (amended): the fan-out budget bounds the nested previews computed
for EACH top-level variable, not the whole pass: the drill-down loop
never computes more than its `remaining` budget of previews, and one
variable's enrichment (`enrichVar`, which seeds the loop with
`_MAX_CHILD_PREVIEWS = 40`) computes at most `1 + 40` previews — the
variable's own plus at most 40 children.  (The budget is re-granted per
variable; `child_preview_budget_counterexample` shows a pass computing
more than 40 children in total.) -/
theorem child_preview_budget_per_variable :
    (∀ (ns : Namespace) (rows cols fuel : Nat) (queue : List String)
      (remaining : Nat) (st : PassState),
      (bfsF ns rows cols fuel queue remaining st).fst.computed.length ≤
        st.computed.length + remaining) ∧
    (∀ (ns : Namespace) (rows cols : Nat) (name : String) (st : PassState),
      (enrichVar ns rows cols name st).fst.computed.length ≤
        st.computed.length + 1 + _MAX_CHILD_PREVIEWS) := by
  refine ⟨fun ns rows cols => bfsF_computed_le ns rows cols, ?_⟩
  intro ns rows cols name st
  unfold enrichVar
  have hgrow := cache_preview_computed_le name ns rows cols st
  cases hc : _cache_preview name ns rows cols st with
  | mk res st1 =>
    rw [hc] at hgrow
    have hgrow1 : st1.computed.length ≤ st.computed.length + 1 := hgrow
    cases res with
    | error e => dsimp only; omega
    | ok o =>
      cases o with
      | none => dsimp only; omega
      | some p =>
        dsimp only
        have := bfsF_computed_le ns rows cols
          ((_child_preview_paths name p _MAX_CHILD_PREVIEWS).length +
            _MAX_CHILD_PREVIEWS * _MAX_CHILD_PREVIEWS + 1)
          (_child_preview_paths name p _MAX_CHILD_PREVIEWS)
          _MAX_CHILD_PREVIEWS st1
        omega

/-- Fields `f0 … f20` of a plain dataclass, each an integer. -/
def dcFields : List (String × String × PyVal) :=
  (List.range 21).map (fun i => ("f" ++ toString i, "int", PyVal.vint (i : Int)))

/-- Two top-level dataclass variables with 21 fields each. -/
def nsC2 : Namespace :=
  [("v1", .dataclassV "R" dcFields), ("v2", .dataclassV "R" dcFields)]

/-- Counterexample to C2 as stated: one snapshot pass over the namespace
`{v1: R(f0..f20), v2: R(f0..f20)}` completes without fault and computes
42 nested child previews (the paths containing a `.`), exceeding the
fan-out budget of 40 — because `enrich` resets `remaining =
_MAX_CHILD_PREVIEWS` inside the per-variable loop, the budget is granted
per top-level variable (21 children each here), not shared across the
pass. -/
theorem child_preview_budget_counterexample :
    (_myipy_emit_debug_vars Option.none nsC2 _FILTERS_init 30 20).snd = Option.none ∧
    ((_myipy_emit_debug_vars Option.none nsC2 _FILTERS_init 30 20).fst.computed.filter
      (fun s => s.data.contains '.')).length = 42 ∧
    _MAX_CHILD_PREVIEWS < 42 :=
  ⟨rfl, by decide, by decide⟩

/-- The invariant behind C9: the ghost log of computed paths has no
duplicates, and every computed path has been marked visited. -/
def PassInv (st : PassState) : Prop :=
  st.computed.Nodup ∧ ∀ n, n ∈ st.computed → n ∈ st.visited

theorem cache_preview_inv {name : String} {ns : Namespace} {rows cols : Nat}
    {st : PassState} (h : PassInv st) :
    PassInv (_cache_preview name ns rows cols st).snd ∧
      ∀ n, n ∈ st.visited → n ∈ (_cache_preview name ns rows cols st).snd.visited := by
  rcases cache_preview_cases name ns rows cols st with he | ⟨hv, hvis, hcomp, -⟩
  · rw [he]
    exact ⟨h, fun n hn => hn⟩
  · refine ⟨⟨?_, ?_⟩, ?_⟩
    · rw [hcomp]
      have hnc : name ∉ st.computed := fun hc => hv (h.2 name hc)
      rw [List.nodup_append]
      refine ⟨h.1, List.nodup_singleton _, ?_⟩
      intro x hx hx1
      rw [List.mem_singleton.mp hx1] at hx
      exact hnc hx
    · intro n hn
      rw [hcomp] at hn
      rw [hvis]
      rcases List.mem_append.mp hn with hn | hn
      · exact List.mem_cons_of_mem _ (h.2 n hn)
      · rw [List.mem_singleton.mp hn]
        exact List.mem_cons_self _ _
    · intro n hn
      rw [hvis]
      exact List.mem_cons_of_mem _ hn

theorem bfsF_inv (ns : Namespace) (rows cols : Nat) :
    ∀ (fuel : Nat) (queue : List String) (remaining : Nat) (st : PassState),
      PassInv st → PassInv (bfsF ns rows cols fuel queue remaining st).fst := by
  intro fuel
  induction fuel with
  | zero => intro queue remaining st h; simpa [bfsF] using h
  | succ fuel ih =>
    intro queue remaining st h
    match queue, remaining with
    | [], _ => simpa [bfsF] using h
    | _ :: _, 0 => simpa [bfsF] using h
    | child :: rest, Nat.succ r =>
      rw [bfsF]
      have hinv := (@cache_preview_inv child ns rows cols st h).1
      cases hc : _cache_preview child ns rows cols st with
      | mk res st1 =>
        rw [hc] at hinv
        have hinv1 : PassInv st1 := hinv
        cases res with
        | error e => exact hinv1
        | ok o =>
          cases o with
          | none => exact ih rest (r + 1) st1 hinv1
          | some p => exact ih _ r st1 hinv1

theorem enrichVar_inv {ns : Namespace} {rows cols : Nat} {name : String}
    {st : PassState} (h : PassInv st) :
    PassInv (enrichVar ns rows cols name st).fst := by
  unfold enrichVar
  have hinv := (@cache_preview_inv name ns rows cols st h).1
  cases hc : _cache_preview name ns rows cols st with
  | mk res st1 =>
    rw [hc] at hinv
    have hinv1 : PassInv st1 := hinv
    cases res with
    | error e => exact hinv1
    | ok o =>
      cases o with
      | none => exact hinv1
      | some p => exact bfsF_inv ns rows cols _ _ _ st1 hinv1

theorem enrichScope_inv (ns : Namespace) (rows cols : Nat) :
    ∀ (names : List String) (st : PassState), PassInv st →
      PassInv (enrichScope ns rows cols names st).fst := by
  intro names
  induction names with
  | nil => intro st h; exact h
  | cons n rest ih =>
    intro st h
    rw [enrichScope]
    have h1 := @enrichVar_inv ns rows cols n st h
    cases hc : enrichVar ns rows cols n st with
    | mk st1 res =>
      rw [hc] at h1
      obtain ⟨cm, ab⟩ := res
      cases ab with
      | none => exact ih st1 h1
      | some e => exact h1

theorem runPass_nodup (ns1 : Namespace) (rows cols : Nat)
    (names1 names2 : List String) :
    (runPass ns1 rows cols names1 names2).fst.computed.Nodup := by
  have h0 : PassInv passInit :=
    ⟨List.nodup_nil, fun n hn => absurd hn (List.not_mem_nil _)⟩
  have h1 := enrichScope_inv ns1 rows cols names1 passInit h0
  unfold runPass
  cases hc : enrichScope ns1 rows cols names1 passInit with
  | mk st1 ab =>
    rw [hc] at h1
    have h1a : PassInv st1 := h1
    cases ab with
    | some e => exact h1a.1
    | none => exact (enrichScope_inv ns1 rows cols names2 st1 h1a).1

/-- C9: within one snapshot pass no path's preview is computed more than
once — the chronological log of computed paths is duplicate-free for
every frame / namespace / filter / limit input.  (Each computation first
checks the shared cache and visited set and marks the path visited, and
the pass terminates on every input: all the loop embeddings above are
total functions.) -/
theorem snapshot_pass_computes_each_path_once :
    ∀ (frame : Option (Namespace × Namespace)) (gl : Namespace)
      (filters : Filters) (rows cols : Nat),
      (_myipy_emit_debug_vars frame gl filters rows cols).fst.computed.Nodup := by
  intro frame gl filters rows cols
  unfold _myipy_emit_debug_vars
  dsimp only
  exact runPass_nodup _ rows cols _ _

/-! ## C5: whitespace handling in `resolve_path` -/

/-- Counterexample to C5 as stated: whitespace is NOT ignored everywhere
between tokens.  Inserting a space after `[` (before the bracket key)
turns the successful resolution `a[0]` into the syntax failure
`invalid index` — the integer scanner starts at the space and reads an
empty digit run.  (Only the top-level loop skips whitespace; the bracket
and attribute sub-scanners do not.) -/
theorem resolve_path_whitespace_counterexample :
    resolve_path "a[0]" [("a", .vlist [.vint 7])] =
      .ok (true, some (.vint 7), Option.none) ∧
    resolve_path "a[ 0]" [("a", .vlist [.vint 7])] =
      .ok (false, Option.none, some "invalid index") ∧
    resolve_path "a[ 0]" [("a", .vlist [.vint 7])] ≠
      resolve_path "a[0]" [("a", .vlist [.vint 7])] :=
  ⟨rfl, rfl, fun h => absurd (congrArg okFlag h) (by decide)⟩

/-- One path segment after the leading identifier: an attribute access,
an integer bracket key, or a single-quoted string bracket key. -/
inductive Seg where
  | attr (id : String) : Seg
  | idx (i : Int) : Seg
  | key (s : String) : Seg

/-- A usable identifier: non-empty and made of identifier characters. -/
def validIdent (s : String) : Prop :=
  s.data ≠ [] ∧ ∀ c ∈ s.data, isIdentChar c = true

/-- A string key renderable with single quotes and no escapes. -/
def validKeyStr (s : String) : Prop :=
  ∀ c ∈ s.data, c ≠ sq ∧ c ≠ '\\'

/-- Validity of one segment for the rendering lemmas. -/
def validSeg : Seg → Prop
  | .attr id => validIdent id
  | .idx _ => True
  | .key s => validKeyStr s

/-- Decimal digits of a natural number, fuel-indexed (the fuel `n + 1`
of `natDigits` always suffices since the value shrinks by a factor of
ten per step). -/
def natDigitsAux : Nat → Nat → List Char → List Char
  | 0, _, acc => acc
  | Nat.succ fuel, n, acc =>
    let d := Char.ofNat (48 + n % 10)
    if n < 10 then d :: acc else natDigitsAux fuel (n / 10) (d :: acc)

/-- Decimal rendering of a natural number. -/
def natDigits (n : Nat) : List Char := natDigitsAux (n + 1) n []

/-- Characters of a rendered integer bracket key (negative values carry
a leading minus sign). -/
def intKeyChars : Int → List Char
  | .ofNat n => natDigits n
  | .negSucc m => '-' :: natDigits (m + 1)

/-- Characters of one rendered segment. -/
def renderSegChars : Seg → List Char
  | .attr id => '.' :: id.data
  | .idx i => '[' :: (intKeyChars i ++ [']'])
  | .key s => '[' :: (sq :: (s.data ++ [sq, ']']))

/-- The rendered tail of a path: the segments, one after another. -/
def renderTail : List Seg → List Char
  | [] => []
  | s :: rest => renderSegChars s ++ renderTail rest

/-- The rendered tail with one space inserted before each segment's
leading token (`.` or `[`). -/
def renderTailSpaced : List Seg → List Char
  | [] => []
  | s :: rest => ' ' :: (renderSegChars s ++ renderTailSpaced rest)

theorem identChar_not_ws {c : Char} (h : isIdentChar c = true) :
    c.isWhitespace = false := by
  cases hws : c.isWhitespace
  · rfl
  · exfalso
    simp only [Char.isWhitespace, Bool.or_eq_true, decide_eq_true_eq] at hws
    rcases hws with (((h1 | h1) | h1) | h1) <;> subst h1 <;>
      exact absurd h (by decide)

theorem digit_char_facts {c : Char} (h : c.isDigit = true) :
    ¬(c = sq ∨ c = '"') ∧ c ≠ '-' ∧ c ≠ ']' ∧ isIdentChar c = true ∧
      c.isWhitespace = false := by
  refine ⟨?_, ?_, ?_, ?_, ?_⟩
  · rintro (h1 | h1) <;> subst h1 <;> exact absurd h (by decide)
  · rintro h1; subst h1; exact absurd h (by decide)
  · rintro h1; subst h1; exact absurd h (by decide)
  · unfold isIdentChar
    simp [Char.isAlphanum, h]
  · apply identChar_not_ws
    unfold isIdentChar
    simp [Char.isAlphanum, h]

theorem natDigitsAux_all_digits :
    ∀ (fuel n : Nat) (acc : List Char), (∀ c ∈ acc, c.isDigit = true) →
      ∀ c ∈ natDigitsAux fuel n acc, c.isDigit = true := by
  intro fuel
  induction fuel with
  | zero => intro n acc hacc c hc; exact hacc c hc
  | succ fuel ih =>
    intro n acc hacc c hc
    rw [natDigitsAux] at hc
    have hd : (Char.ofNat (48 + n % 10)).isDigit = true := by
      have h10 : n % 10 < 10 := Nat.mod_lt _ (by omega)
      interval_cases h : (n % 10) <;> decide
    by_cases hn : n < 10
    · rw [if_pos hn] at hc
      rcases List.mem_cons.mp hc with h1 | h1
      · rw [h1]; exact hd
      · exact hacc c h1
    · rw [if_neg hn] at hc
      refine ih (n / 10) _ ?_ c hc
      intro c2 hc2
      rcases List.mem_cons.mp hc2 with h1 | h1
      · rw [h1]; exact hd
      · exact hacc c2 h1

theorem natDigitsAux_ne_nil :
    ∀ (fuel n : Nat) (acc : List Char), acc ≠ [] →
      natDigitsAux fuel n acc ≠ [] := by
  intro fuel
  induction fuel with
  | zero => intro n acc h; exact h
  | succ fuel ih =>
    intro n acc h
    rw [natDigitsAux]
    by_cases hn : n < 10
    · rw [if_pos hn]; simp
    · rw [if_neg hn]
      exact ih (n / 10) _ (by simp)

theorem natDigits_all_digits (n : Nat) :
    ∀ c ∈ natDigits n, c.isDigit = true :=
  natDigitsAux_all_digits (n + 1) n []
    (fun c hc => absurd hc (List.not_mem_nil _))

theorem natDigits_ne_nil (n : Nat) : natDigits n ≠ [] := by
  unfold natDigits
  rw [natDigitsAux]
  by_cases hn : n < 10
  · rw [if_pos hn]; simp
  · rw [if_neg hn]
    exact natDigitsAux_ne_nil n (n / 10) _ (by simp)

theorem takeWhile_all_append {p : Char → Bool} :
    ∀ {l r : List Char}, (∀ x ∈ l, p x = true) →
      (∀ c, r.head? = some c → p c = false) →
      (l ++ r).takeWhile p = l ∧ (l ++ r).dropWhile p = r := by
  intro l
  induction l with
  | nil =>
    intro r hl hr
    simp only [List.nil_append]
    cases r with
    | nil => simp [List.takeWhile, List.dropWhile]
    | cons c r' =>
      have := hr c rfl
      simp [List.takeWhile, List.dropWhile, this]
  | cons a l ih =>
    intro r hl hr
    have ha : p a = true := hl a (List.mem_cons_self _ _)
    have hrec := ih (fun x hx => hl x (List.mem_cons_of_mem _ hx)) hr
    simp only [List.cons_append, List.takeWhile, List.dropWhile, ha]
    constructor
    · show a :: List.takeWhile p (l ++ r) = a :: l
      rw [hrec.1]
    · show List.dropWhile p (l ++ r) = r
      rw [hrec.2]

theorem readIdentChars_append {id rest : List Char}
    (h1 : id ≠ []) (h2 : ∀ c ∈ id, isIdentChar c = true)
    (h3 : ∀ c, rest.head? = some c → isIdentChar c = false) :
    readIdentChars (id ++ rest) = (some id, rest) := by
  unfold readIdentChars
  have := @takeWhile_all_append isIdentChar id rest h2 h3
  rw [this.1, this.2]
  dsimp only
  rw [if_neg (by simpa using h1)]

theorem parseStrKey_clean :
    ∀ (cs r : List Char), (∀ c ∈ cs, c ≠ sq ∧ c ≠ '\\') →
      parseStrKey sq (cs ++ sq :: r) = some (⟨cs⟩, r) := by
  intro cs
  induction cs with
  | nil =>
    intro r h
    rw [List.nil_append, parseStrKey.eq_def]
    dsimp only
    rw [if_neg (by decide), if_pos rfl]
  | cons c cs ih =>
    intro r h
    have hc := h c (List.mem_cons_self _ _)
    rw [List.cons_append, parseStrKey.eq_def]
    dsimp only
    rw [if_neg hc.2, if_neg hc.1]
    rw [ih r (fun x hx => h x (List.mem_cons_of_mem _ hx))]

theorem dropWhile_ws_self {cs : List Char}
    (h : ∀ c, cs.head? = some c → c.isWhitespace = false) :
    cs.dropWhile Char.isWhitespace = cs := by
  cases cs with
  | nil => rfl
  | cons c r =>
    have := h c rfl
    simp [List.dropWhile, this]

theorem pyStrip_eq_self {cs : List Char}
    (h1 : ∀ c, cs.head? = some c → c.isWhitespace = false)
    (h2 : ∀ c, cs.getLast? = some c → c.isWhitespace = false) :
    pyStrip ⟨cs⟩ = ⟨cs⟩ := by
  unfold pyStrip
  show (⟨((cs.dropWhile Char.isWhitespace).reverse.dropWhile
    Char.isWhitespace).reverse⟩ : String) = ⟨cs⟩
  rw [dropWhile_ws_self h1]
  rw [dropWhile_ws_self (fun c hc => h2 c (by rwa [← List.head?_reverse]))]
  rw [List.reverse_reverse]

theorem renderSeg_ne_nil (s : Seg) : renderSegChars s ≠ [] := by
  cases s <;> simp [renderSegChars]

theorem renderTail_head_not_ident (segs : List Seg) :
    ∀ c, (renderTail segs).head? = some c → isIdentChar c = false := by
  intro c hc
  match segs with
  | [] => simp [renderTail] at hc
  | s :: rest =>
    rw [renderTail] at hc
    cases s <;>
      (rw [renderSegChars] at hc
       simp only [List.cons_append, List.head?_cons, Option.some.injEq] at hc
       subst hc
       decide)

theorem renderTailSpaced_head_not_ident (segs : List Seg) :
    ∀ c, (renderTailSpaced segs).head? = some c → isIdentChar c = false := by
  intro c hc
  match segs with
  | [] => simp [renderTailSpaced] at hc
  | s :: rest =>
    rw [renderTailSpaced] at hc
    simp only [List.head?_cons, Option.some.injEq] at hc
    subst hc
    decide

theorem renderSeg_getLast_not_ws (s : Seg) (hv : validSeg s) :
    ∀ c, (renderSegChars s).getLast? = some c → c.isWhitespace = false := by
  intro c hc
  cases s with
  | attr id =>
    obtain ⟨hne, hall⟩ := hv
    rw [renderSegChars] at hc
    rw [show ('.' :: id.data) = ['.'] ++ id.data from rfl,
      List.getLast?_append_of_ne_nil _ hne] at hc
    exact identChar_not_ws (hall c (List.mem_of_mem_getLast? hc))
  | idx i =>
    rw [renderSegChars] at hc
    rw [show ('[' :: (intKeyChars i ++ [']'])) =
        ('[' :: intKeyChars i) ++ (']' :: []) from by simp,
      List.getLast?_append_cons] at hc
    simp only [List.getLast?_singleton, Option.some.injEq] at hc
    subst hc
    decide
  | key k =>
    rw [renderSegChars] at hc
    rw [show ('[' :: (sq :: (k.data ++ [sq, ']']))) =
        ('[' :: sq :: k.data ++ [sq]) ++ (']' :: []) from by simp,
      List.getLast?_append_cons] at hc
    simp only [List.getLast?_singleton, Option.some.injEq] at hc
    subst hc
    decide

theorem renderTail_getLast_not_ws :
    ∀ (segs : List Seg), (∀ s ∈ segs, validSeg s) →
      ∀ c, (renderTail segs).getLast? = some c → c.isWhitespace = false := by
  intro segs
  induction segs with
  | nil => intro _ c hc; simp [renderTail] at hc
  | cons s rest ih =>
    intro hv c hc
    rw [renderTail] at hc
    by_cases hr : renderTail rest = []
    · rw [hr, List.append_nil] at hc
      exact renderSeg_getLast_not_ws s (hv s (List.mem_cons_self _ _)) c hc
    · rw [List.getLast?_append_of_ne_nil _ hr] at hc
      exact ih (fun x hx => hv x (List.mem_cons_of_mem _ hx)) c hc

theorem renderTailSpaced_getLast_not_ws :
    ∀ (segs : List Seg), (∀ s ∈ segs, validSeg s) →
      ∀ c, (renderTailSpaced segs).getLast? = some c → c.isWhitespace = false := by
  intro segs
  induction segs with
  | nil => intro _ c hc; simp [renderTailSpaced] at hc
  | cons s rest ih =>
    intro hv c hc
    rw [renderTailSpaced] at hc
    have hne : renderSegChars s ++ renderTailSpaced rest ≠ [] := by
      intro h
      exact renderSeg_ne_nil s (List.append_eq_nil.mp h).1
    rw [show (' ' :: (renderSegChars s ++ renderTailSpaced rest)) =
        [' '] ++ (renderSegChars s ++ renderTailSpaced rest) from rfl,
      List.getLast?_append_of_ne_nil _ hne] at hc
    by_cases hr : renderTailSpaced rest = []
    · rw [hr, List.append_nil] at hc
      exact renderSeg_getLast_not_ws s (hv s (List.mem_cons_self _ _)) c hc
    · rw [List.getLast?_append_of_ne_nil _ hr] at hc
      exact ih (fun x hx => hv x (List.mem_cons_of_mem _ hx)) c hc

theorem walkF_attr_step (f : Nat) (id : String) (tail : List Char) (v : PyVal)
    (hid : validIdent id)
    (htail : ∀ c, tail.head? = some c → isIdentChar c = false) :
    walkF (Nat.succ f) ('.' :: (id.data ++ tail)) v =
      (match getattrPy v id with
       | .error m => .ok (false, Option.none, some m)
       | .ok v2 => walkF f tail v2) := by
  show walkStep (walkF f) ('.' :: (id.data ++ tail)) v = _
  rw [walkStep.eq_def]
  dsimp only
  rw [if_neg (by decide), if_pos rfl]
  rw [readIdentChars_append hid.1 hid.2 htail]

theorem walkF_idx_step (f n : Nat) (tail : List Char) (v : PyVal) :
    walkF (Nat.succ f) ('[' :: (natDigits n ++ ']' :: tail)) v =
      (match getitemPy v (.kint (decToNat (natDigits n))) with
       | .error m => .ok (false, Option.none, some m)
       | .ok v2 => walkF f tail v2) := by
  show walkStep (walkF f) ('[' :: (natDigits n ++ ']' :: tail)) v = _
  rw [walkStep.eq_def]
  dsimp only
  rw [if_neg (by decide), if_neg (by decide), if_pos rfl]
  obtain ⟨d, ds, hd⟩ : ∃ d ds, natDigits n = d :: ds := by
    match hnd : natDigits n with
    | [] => exact absurd hnd (natDigits_ne_nil n)
    | d :: ds => exact ⟨d, ds, rfl⟩
  have hdig := natDigits_all_digits n
  have htw := takeWhile_all_append hdig
    (fun (c : Char) (hc : (']' :: tail).head? = some c) => by
      simp only [List.head?_cons, Option.some.injEq] at hc
      subst hc
      decide)
  rw [hd] at htw ⊢
  rw [List.cons_append]
  rw [List.cons_append] at htw
  dsimp only
  have hfacts := digit_char_facts (hdig d (by rw [hd]; exact List.mem_cons_self d ds))
  rw [if_neg hfacts.1, if_neg hfacts.2.1]
  rw [htw.1, htw.2]
  rw [if_neg (by simp)]
  dsimp only
  rw [if_pos rfl]

theorem walkF_negidx_step (f m : Nat) (tail : List Char) (v : PyVal) :
    walkF (Nat.succ f) ('[' :: ('-' :: (natDigits (m + 1) ++ ']' :: tail))) v =
      .error "invalid literal for int() with base 10" := by
  show walkStep (walkF f) _ v = _
  rw [walkStep.eq_def]
  dsimp only
  rw [if_neg (by decide), if_neg (by decide), if_pos rfl]
  rw [if_neg (by decide), if_pos rfl]

theorem walkF_key_step (f : Nat) (s : String) (tail : List Char) (v : PyVal)
    (hs : validKeyStr s) :
    walkF (Nat.succ f) ('[' :: (sq :: (s.data ++ sq :: ']' :: tail))) v =
      (match getitemPy v (.kstr s) with
       | .error m => .ok (false, Option.none, some m)
       | .ok v2 => walkF f tail v2) := by
  show walkStep (walkF f) _ v = _
  rw [walkStep.eq_def]
  dsimp only
  rw [if_neg (by decide), if_neg (by decide), if_pos rfl]
  rw [if_pos (Or.inl rfl)]
  rw [parseStrKey_clean s.data (']' :: tail) hs]
  dsimp only
  rw [if_pos rfl]

theorem walk_render :
    ∀ (segs : List Seg), (∀ s ∈ segs, validSeg s) →
      ∀ (v : PyVal) (f g : Nat),
        (renderTailSpaced segs).length < f → (renderTail segs).length < g →
        walkF f (renderTailSpaced segs) v = walkF g (renderTail segs) v := by
  intro segs
  induction segs with
  | nil =>
    intro _ v f g hf hg
    match f, g, hf, hg with
    | Nat.succ f, Nat.succ g, _, _ => rfl
  | cons s rest ih =>
    intro hv v f g hf hg
    have hvr : ∀ x ∈ rest, validSeg x := fun x hx => hv x (List.mem_cons_of_mem _ hx)
    have hvs : validSeg s := hv s (List.mem_cons_self _ _)
    have hlsp : (renderTailSpaced (s :: rest)).length =
        (renderSegChars s).length + (renderTailSpaced rest).length + 1 := by
      rw [renderTailSpaced]
      simp [List.length_append]
    have hlpl : (renderTail (s :: rest)).length =
        (renderSegChars s).length + (renderTail rest).length := by
      rw [renderTail]
      simp [List.length_append]
    match f, hf with
    | Nat.succ f, hf => ?_
    have hsp : walkF (Nat.succ f) (renderTailSpaced (s :: rest)) v =
        walkF f (renderSegChars s ++ renderTailSpaced rest) v := by
      show walkStep (walkF f) (' ' :: (renderSegChars s ++ renderTailSpaced rest)) v = _
      rw [walkStep.eq_def]
      dsimp only
      rw [if_pos (by decide)]
    rw [hsp]
    rw [hlsp] at hf
    rw [hlpl] at hg
    rw [renderTail]
    cases s with
    | attr id =>
      obtain ⟨hidne, hidall⟩ := hvs
      have hid1 : 1 ≤ id.data.length := by
        cases hn : id.data with
        | nil => exact absurd hn hidne
        | cons a l => simp
      have hlen : (renderSegChars (Seg.attr id)).length = id.data.length + 1 := by
        rw [renderSegChars]
        simp
      rw [hlen] at hf hg
      obtain ⟨f1, rfl⟩ : ∃ f1, f = Nat.succ f1 := ⟨f - 1, by omega⟩
      obtain ⟨g1, rfl⟩ : ∃ g1, g = Nat.succ g1 := ⟨g - 1, by omega⟩
      show walkF (Nat.succ f1) ('.' :: (id.data ++ renderTailSpaced rest)) v =
          walkF (Nat.succ g1) ('.' :: (id.data ++ renderTail rest)) v
      rw [walkF_attr_step f1 id (renderTailSpaced rest) v ⟨hidne, hidall⟩
          (renderTailSpaced_head_not_ident rest),
        walkF_attr_step g1 id (renderTail rest) v ⟨hidne, hidall⟩
          (renderTail_head_not_ident rest)]
      cases getattrPy v id with
      | error m => rfl
      | ok v2 => exact ih hvr v2 f1 g1 (by omega) (by omega)
    | idx i =>
      cases i with
      | ofNat n =>
        have hnd1 : 1 ≤ (natDigits n).length := by
          cases hn : natDigits n with
          | nil => exact absurd hn (natDigits_ne_nil n)
          | cons a l => simp
        have hlen : (renderSegChars (Seg.idx (Int.ofNat n))).length =
            (natDigits n).length + 2 := by
          rw [renderSegChars]
          simp [intKeyChars]
        have e : ∀ (t : List Char), renderSegChars (Seg.idx (Int.ofNat n)) ++ t =
            '[' :: (natDigits n ++ ']' :: t) := by
          intro t
          show '[' :: ((natDigits n ++ [']']) ++ t) = _
          rw [List.append_assoc]
          rfl
        rw [hlen] at hf hg
        rw [e (renderTailSpaced rest), e (renderTail rest)]
        obtain ⟨f1, rfl⟩ : ∃ f1, f = Nat.succ f1 := ⟨f - 1, by omega⟩
        obtain ⟨g1, rfl⟩ : ∃ g1, g = Nat.succ g1 := ⟨g - 1, by omega⟩
        rw [walkF_idx_step f1 n (renderTailSpaced rest) v,
          walkF_idx_step g1 n (renderTail rest) v]
        cases getitemPy v (.kint (decToNat (natDigits n))) with
        | error m => rfl
        | ok v2 => exact ih hvr v2 f1 g1 (by omega) (by omega)
      | negSucc m =>
        have hnd1 : 1 ≤ (natDigits (m + 1)).length := by
          cases hn : natDigits (m + 1) with
          | nil => exact absurd hn (natDigits_ne_nil (m + 1))
          | cons a l => simp
        have hlen : (renderSegChars (Seg.idx (Int.negSucc m))).length =
            (natDigits (m + 1)).length + 3 := by
          rw [renderSegChars]
          simp [intKeyChars]
        have e : ∀ (t : List Char), renderSegChars (Seg.idx (Int.negSucc m)) ++ t =
            '[' :: ('-' :: (natDigits (m + 1) ++ ']' :: t)) := by
          intro t
          show '[' :: ('-' :: ((natDigits (m + 1) ++ [']']) ++ t)) = _
          rw [List.append_assoc]
          rfl
        rw [hlen] at hf hg
        rw [e (renderTailSpaced rest), e (renderTail rest)]
        obtain ⟨f1, rfl⟩ : ∃ f1, f = Nat.succ f1 := ⟨f - 1, by omega⟩
        obtain ⟨g1, rfl⟩ : ∃ g1, g = Nat.succ g1 := ⟨g - 1, by omega⟩
        rw [walkF_negidx_step f1 m (renderTailSpaced rest) v,
          walkF_negidx_step g1 m (renderTail rest) v]
    | key k =>
      have hlen : (renderSegChars (Seg.key k)).length = k.data.length + 4 := by
        rw [renderSegChars]
        simp
      have e : ∀ (t : List Char), renderSegChars (Seg.key k) ++ t =
          '[' :: (sq :: (k.data ++ sq :: ']' :: t)) := by
        intro t
        show '[' :: (sq :: ((k.data ++ [sq, ']']) ++ t)) = _
        rw [List.append_assoc]
        rfl
      rw [hlen] at hf hg
      rw [e (renderTailSpaced rest), e (renderTail rest)]
      obtain ⟨f1, rfl⟩ : ∃ f1, f = Nat.succ f1 := ⟨f - 1, by omega⟩
      obtain ⟨g1, rfl⟩ : ∃ g1, g = Nat.succ g1 := ⟨g - 1, by omega⟩
      rw [walkF_key_step f1 k (renderTailSpaced rest) v hvs,
        walkF_key_step g1 k (renderTail rest) v hvs]
      cases getitemPy v (.kstr k) with
      | error m => rfl
      | ok v2 => exact ih hvr v2 f1 g1 (by omega) (by omega)

/-- C5 (amended): whitespace in a path is honoured only where the scan
loop's top skips it — immediately before a segment's leading token
(`.` or `[`).  For every well-formed dotted/bracket path, inserting one
space before each segment's leading token yields the same resolution as
the un-spaced path, over every namespace, whether resolution succeeds or
fails.  (The claim as stated — whitespace anywhere between tokens —
is refuted by `resolve_path_whitespace_counterexample`: a space after
`[`, inside a bracket, or before `]` is a syntax error, because only the
main loop of `resolve_path` skips whitespace.) -/
theorem resolve_path_whitespace_amended
    (nm : String) (segs : List Seg) (ns : Namespace)
    (hnm : validIdent nm) (hsegs : ∀ s ∈ segs, validSeg s) :
    resolve_path ⟨nm.data ++ renderTailSpaced segs⟩ ns =
      resolve_path ⟨nm.data ++ renderTail segs⟩ ns := by
  obtain ⟨hne, hall⟩ := hnm
  have hstrip : ∀ (tail : List Char),
      (∀ c, tail.getLast? = some c → c.isWhitespace = false) →
      pyStrip ⟨nm.data ++ tail⟩ = ⟨nm.data ++ tail⟩ := by
    intro tail htl
    apply pyStrip_eq_self
    · intro c hc
      rw [List.head?_append_of_ne_nil _ hne] at hc
      exact identChar_not_ws (hall c (List.mem_of_mem_head? hc))
    · intro c hc
      by_cases ht : tail = []
      · rw [ht, List.append_nil] at hc
        exact identChar_not_ws (hall c (List.mem_of_mem_getLast? hc))
      · rw [List.getLast?_append_of_ne_nil _ ht] at hc
        exact htl c hc
  have hkey : ∀ (tail : List Char),
      (∀ c, tail.head? = some c → isIdentChar c = false) →
      (∀ c, tail.getLast? = some c → c.isWhitespace = false) →
      readIdentChars (pyStrip ⟨nm.data ++ tail⟩).data = (some nm.data, tail) := by
    intro tail hh hl
    rw [hstrip tail hl]
    show readIdentChars (nm.data ++ tail) = _
    exact readIdentChars_append hne hall hh
  simp only [resolve_path, resolve_path_st]
  rw [hkey (renderTailSpaced segs) (renderTailSpaced_head_not_ident segs)
      (renderTailSpaced_getLast_not_ws segs hsegs),
    hkey (renderTail segs) (renderTail_head_not_ident segs)
      (renderTail_getLast_not_ws segs hsegs)]
  dsimp only
  cases nsFind (if ns.isEmpty then _module_globals else ns) ⟨nm.data⟩ with
  | none => rfl
  | some v =>
    show walk (renderTailSpaced segs) v = walk (renderTail segs) v
    unfold walk
    exact walk_render segs hsegs v _ _ (by omega) (by omega)

theorem resolve_path_whitespace_amended_witness :
    (validIdent "a" ∧ (∀ s ∈ [Seg.idx 0], validSeg s)) ∧
      resolve_path ⟨("a").data ++ renderTailSpaced [Seg.idx 0]⟩
          [("a", PyVal.vlist [PyVal.vint 7])] =
        resolve_path ⟨("a").data ++ renderTail [Seg.idx 0]⟩
          [("a", PyVal.vlist [PyVal.vint 7])] := by
  have hi : validIdent "a" := ⟨by decide, by decide⟩
  have hv : ∀ s ∈ [Seg.idx 0], validSeg s := by
    intro s hs
    rw [List.mem_singleton] at hs
    subst hs
    exact trivial
  exact ⟨⟨hi, hv⟩,
    resolve_path_whitespace_amended "a" [Seg.idx 0] [("a", PyVal.vlist [PyVal.vint 7])] hi hv⟩

end IpyBridge
